import Mathlib

/-!
# OpenGl_Context: resource lifecycle and capability negotiation

A shallow embedding of `src/OpenGl/OpenGl_Context.cxx`.

* Handles (`Handle(OpenGl_Resource)`, `Handle(OpenGl_ResourcesMap)`, ...) are
  intrusive reference-counting pointers: the pointed object carries a counter
  that every copy of a handle increments and every destroyed handle
  decrements.  The objects live in a `World`; a handle is the address of its
  object.
* `OpenGl_Resource::Release (ctx)` is virtual; a call is recorded in the
  `released` trace of the world.
* The driver (`glGetString`, `glGetIntegerv`, `glGetError`, the
  `*GetProcAddress` family) is an oracle, `GlDriver`.
-/

namespace OpenGl

/-! ## NCollection_DataMap -/

/-- Modelled from the spec: NCollection_DataMap (the container behind
OpenGl_ResourcesMap and OpenGl_DelayReleaseMap) is not among the sources.  It
is a finite map from keys to items, here the list of its nodes. -/
abbrev DataMap (K V : Type) := List (K × V)

namespace DataMap

variable {K V : Type} [DecidableEq K]

/-- Modelled from the spec: NCollection_DataMap::IsBound. -/
def IsBound (m : DataMap K V) (k : K) : Bool :=
  m.any (fun e => decide (e.1 = k))

/-- Modelled from the spec: NCollection_DataMap::Find, `none` when the key is
not bound (the source only calls it after IsBound). -/
def Find : DataMap K V → K → Option V
  | [], _ => none
  | e :: m, k => if e.1 = k then some e.2 else Find m k

/-- Modelled from the spec: NCollection_DataMap::Bind.  The spec words it as
"bind is insert-only" and "existing entry stands": a bound key keeps its item
and the call answers false, an unbound key gets a new node and the call
answers true. -/
def Bind (m : DataMap K V) (k : K) (v : V) : DataMap K V × Bool :=
  if IsBound m k then (m, false) else (m ++ [(k, v)], true)

/-- Modelled from the spec: NCollection_DataMap::UnBind, the node of the key
is removed. -/
def UnBind (m : DataMap K V) (k : K) : DataMap K V :=
  m.filter (fun e => !decide (e.1 = k))

end DataMap

/-! ## Objects and handles -/

/-- The gravities PushMessage gives to a message. -/
inductive Message_Gravity where
  | Message_Info
  | Message_Warning
  | Message_Alarm
  deriving DecidableEq, Repr

/-- Address of an OpenGl_Resource object: a non-null Handle(OpenGl_Resource). -/
abbrev ResId := Nat

/-- Address of a shared container object. -/
abbrev Addr := Nat

/-- TCollection_AsciiString used as key. -/
abbrev Key := String

/-- The objects reachable from the contexts.
* refCount r: Standard_Transient::GetRefCount of resource r, the number of
  handles pointing to it;
* released: the calls of OpenGl_Resource::Release, oldest first;
* resourcesMaps: the OpenGl_ResourcesMap objects, resourcesMapRefs their
  reference counters;
* delayMaps: the OpenGl_DelayReleaseMap objects;
* queues: the OpenGl_ResourcesQueue objects (front first), queueRefs their
  reference counters;
* messages: what PushMessage has sent to the message sink, `Messenger()`,
  oldest first. -/
structure World where
  refCount : ResId → Nat
  released : List ResId
  resourcesMaps : Addr → DataMap Key ResId
  resourcesMapRefs : Addr → Nat
  delayMaps : Addr → DataMap Key Int
  queues : Addr → List ResId
  queueRefs : Addr → Nat
  messages : List (String × Message_Gravity)

/-- One handle to resource r is destroyed (Handle destructor, Nullify). -/
def World.dropHandle (w : World) (r : ResId) : World :=
  { w with refCount := Function.update w.refCount r (w.refCount r - 1) }

/-- A caller destroys n of the handles it holds on resource r. -/
def World.dropHandles (w : World) (r : ResId) : Nat → World
  | 0 => w
  | n + 1 => (w.dropHandle r).dropHandles r n

/-- One more handle to resource r exists (Handle copy). -/
def World.copyHandle (w : World) (r : ResId) : World :=
  { w with refCount := Function.update w.refCount r (w.refCount r + 1) }

/-- The call `r->Release (ctx)`. -/
def World.Release (w : World) (r : ResId) : World :=
  { w with released := w.released ++ [r] }

/-- How many times the release routine of r has been invoked. -/
def World.releaseCount (w : World) (r : ResId) : Nat :=
  w.released.count r

/-! ## The context -/

/-- A table of resolved entry points: name and address (0 is NULL). -/
abbrev ProcTable := List (String × Nat)

/-- The fields of OpenGl_Context the embedded functions read or write.  A
pointer to a function table is `none` when NULL; myDisplay, myWindow and
myGContext are the handles of the window system (GLX names), 0 when NULL. -/
structure Context where
  core12 : Option ProcTable
  core13 : Option ProcTable
  core14 : Option ProcTable
  core15 : Option ProcTable
  core20 : Option ProcTable
  arbNPTW : Bool
  arbVBO : Option ProcTable
  arbTBO : Option ProcTable
  arbIns : Option ProcTable
  arbDbg : Option ProcTable
  extFBO : Option ProcTable
  extGS : Option ProcTable
  extBgra : Bool
  extAnis : Bool
  extPDS : Bool
  atiMem : Bool
  nvxMem : Bool
  mySharedResources : Addr
  myDelayed : Addr
  myReleaseQueue : Addr
  myGlCore20 : Option ProcTable
  myAnisoMax : Int
  myMaxTexDim : Int
  myMaxClipPlanes : Int
  myGlVerMajor : Int
  myGlVerMinor : Int
  myIsInitialized : Bool
  myIsStereoBuffers : Bool
  myDisplay : Nat
  myWindow : Nat
  myGContext : Nat

namespace Context

/-! ## Resource lifecycle manager -/

/-- OpenGl_Context::GetResource; `none` is NULL_GL_RESOURCE. -/
def GetResource (this : Context) (w : World) (theKey : Key) : Option ResId :=
  if (w.resourcesMaps this.mySharedResources).IsBound theKey then
    (w.resourcesMaps this.mySharedResources).Find theKey
  else none

/-- OpenGl_Context::ShareResource.  The handle theResource may be null
(`none`).  Behind its guard the function is
`return mySharedResources->Bind (theKey, theResource)`: the answer is the one of
Bind and the registry is the map Bind leaves, whatever the answer; a node that
Bind added holds one more handle to the resource. -/
def ShareResource (this : Context) (w : World) (theKey : Key)
    (theResource : Option ResId) : Bool × World :=
  match theResource with
  | none => (false, w)
  | some r =>
    if theKey.isEmpty then (false, w)
    else
      let b := (w.resourcesMaps this.mySharedResources).Bind theKey r
      (b.2, { (if b.2 then w.copyHandle r else w) with
                resourcesMaps := Function.update w.resourcesMaps this.mySharedResources b.1 })

/-- OpenGl_Context::ReleaseResource. -/
def ReleaseResource (this : Context) (w : World) (theKey : Key) (theToDelay : Bool) : World :=
  if !(w.resourcesMaps this.mySharedResources).IsBound theKey then w
  else
    match (w.resourcesMaps this.mySharedResources).Find theKey with
    | none => w
    | some aRes =>
      if w.refCount aRes > 1 then w
      else if theToDelay then
        { w with delayMaps := Function.update w.delayMaps this.myDelayed
                    ((w.delayMaps this.myDelayed).Bind theKey 1).1 }
      else
        let w1 := w.Release aRes
        { w1.dropHandle aRes with
            resourcesMaps := Function.update w1.resourcesMaps this.mySharedResources
              ((w1.resourcesMaps this.mySharedResources).UnBind theKey) }

/-- OpenGl_Context::DelayedRelease: the queue takes a copy of the handle and
the handle of the caller is nullified. -/
def DelayedRelease (this : Context) (w : World) (theResource : ResId) : World :=
  let w1 := { w.copyHandle theResource with
                queues := Function.update w.queues this.myReleaseQueue
                  (w.queues this.myReleaseQueue ++ [theResource]) }
  w1.dropHandle theResource

/-- First loop of ReleaseDelayed on the content of the queue, front first:
`Front()->Release (this); Pop();`. -/
def releaseQueue (w : World) : List ResId → World
  | [] => w
  | r :: q => releaseQueue ((w.Release r).dropHandle r) q

/-- State of the second loop of ReleaseDelayed: the registry, the reference
counters and the release trace (in the world), the nodes of myDelayed already
visited with their incremented values, and aDeadList. -/
structure DelayedLoop where
  world : World
  visited : DataMap Key Int
  aDeadList : List Key

/-- One pass of the body of the second loop of ReleaseDelayed, at the node
(aKey, aValue) of myDelayed. -/
def delayedStep (this : Context) (s : DelayedLoop) (e : Key × Int) : DelayedLoop :=
  let aKey := e.1
  let aValue := e.2 + 1
  let visited := s.visited ++ [(aKey, aValue)]
  if aValue ≤ 2 then { s with visited := visited }
  else if !(s.world.resourcesMaps this.mySharedResources).IsBound aKey then
    { s with visited := visited, aDeadList := s.aDeadList ++ [aKey] }
  else
    match (s.world.resourcesMaps this.mySharedResources).Find aKey with
    | none => { s with visited := visited, aDeadList := s.aDeadList ++ [aKey] }
    | some aRes =>
      if s.world.refCount aRes > 1 then
        { s with visited := visited, aDeadList := s.aDeadList ++ [aKey] }
      else
        let w1 := s.world.Release aRes
        let w2 := { w1.dropHandle aRes with
                      resourcesMaps := Function.update w1.resourcesMaps this.mySharedResources
                        ((w1.resourcesMaps this.mySharedResources).UnBind aKey) }
        { world := w2, visited := visited, aDeadList := s.aDeadList ++ [aKey] }

/-- OpenGl_Context::ReleaseDelayed: the queue is emptied, the nodes of
myDelayed are visited in the order of the map, then the keys of aDeadList are
unbound from myDelayed. -/
def ReleaseDelayed (this : Context) (w : World) : World :=
  let w1 := { releaseQueue w (w.queues this.myReleaseQueue) with
                queues := Function.update w.queues this.myReleaseQueue [] }
  let s := (w1.delayMaps this.myDelayed).foldl (delayedStep this)
    { world := w1, visited := [], aDeadList := [] }
  { s.world with
      delayMaps := Function.update s.world.delayMaps this.myDelayed
        (s.aDeadList.foldl DataMap.UnBind s.visited) }

/-! ## Sharing group -/

/-- Destructor of an OpenGl_ResourcesMap or OpenGl_ResourcesQueue object: the
handles it holds are destroyed (no release routine is called). -/
def dropAll (w : World) : List ResId → World
  | [] => w
  | r :: rs => dropAll (w.dropHandle r) rs

/-- Assignment `mySharedResources = theNew` of a Handle(OpenGl_ResourcesMap):
theNew gets one more handle, the object pointed before loses one and is
destroyed when that was its last handle. -/
def assignResourcesMap (w : World) (theOld theNew : Addr) : World :=
  let w1 := { w with resourcesMapRefs :=
                Function.update w.resourcesMapRefs theNew (w.resourcesMapRefs theNew + 1) }
  let w2 := { w1 with resourcesMapRefs :=
                Function.update w1.resourcesMapRefs theOld (w1.resourcesMapRefs theOld - 1) }
  if w2.resourcesMapRefs theOld = 0 then
    { dropAll w2 ((w2.resourcesMaps theOld).map Prod.snd) with
        resourcesMaps := Function.update w2.resourcesMaps theOld [] }
  else w2

/-- Assignment `myReleaseQueue = theNew` of a Handle(OpenGl_ResourcesQueue). -/
def assignQueue (w : World) (theOld theNew : Addr) : World :=
  let w1 := { w with queueRefs := Function.update w.queueRefs theNew (w.queueRefs theNew + 1) }
  let w2 := { w1 with queueRefs := Function.update w1.queueRefs theOld (w1.queueRefs theOld - 1) }
  if w2.queueRefs theOld = 0 then
    { dropAll w2 (w2.queues theOld) with queues := Function.update w2.queues theOld [] }
  else w2

/-- OpenGl_Context::Share; theShareCtx may be a null handle (`none`).  The
counter of an OpenGl_DelayReleaseMap is never read and its nodes hold no
handle, so the assignment of myDelayed only changes the field. -/
def Share (this : Context) (w : World) (theShareCtx : Option Context) : Context × World :=
  match theShareCtx with
  | none => (this, w)
  | some c =>
    let w1 := assignResourcesMap w this.mySharedResources c.mySharedResources
    let w2 := assignQueue w1 this.myReleaseQueue c.myReleaseQueue
    ({ this with mySharedResources := c.mySharedResources,
                 myDelayed := c.myDelayed,
                 myReleaseQueue := c.myReleaseQueue }, w2)

end Context

/-! ## The driver -/

/-- What the driver answers to the queries of readGlVersion and init.
* majorVersion, minorVersion: the values found in aMajor and aMinor after
  `glGetIntegerv (GL_MAJOR_VERSION, &aMajor)` and
  `glGetIntegerv (GL_MINOR_VERSION, &aMinor)`; both variables start at 0 and a
  driver that does not know the constants leaves them so;
* versionError: the answer of the glGetError call after these two queries,
  0 is GL_NO_ERROR;
* versionString: `glGetString (GL_VERSION)`, `none` for NULL, else the bytes
  found in memory from the returned address on: the string ends at the first
  NUL and the bytes behind it belong to the driver; a byte beyond the list
  reads as NUL;
* extensions: `glGetString (GL_EXTENSIONS)`, `none` for NULL, else the
  characters of the string before its NUL;
* procAddress: findProc, 0 is NULL;
* maxClipPlanes, maxTextureSize, maxAnisotropy: the value glGetIntegerv
  writes, `none` when it writes nothing;
* stereo: the value found in aStereo after `glGetIntegerv (GL_STEREO, &aStereo)`. -/
structure GlDriver where
  majorVersion : Int
  minorVersion : Int
  versionError : Nat
  versionString : Option (List Char)
  extensions : Option (List Char)
  procAddress : String → Nat
  maxClipPlanes : Option Int
  maxTextureSize : Option Int
  maxAnisotropy : Option Int
  stereo : Int

/-! ## Extension string -/

/-- C library strcspn with a one-character reject set: the length of the
leading run free of the character. -/
def strcspn (s : List Char) (c : Char) : Nat :=
  (s.takeWhile (fun x => x != c)).length

/-- C library strncmp, reduced to a three-way answer; the lists are the
characters before the NUL of each string. -/
def strncmp (a b : List Char) (n : Nat) : Int :=
  if a.take n = b.take n then 0 else if a.take n < b.take n then -1 else 1

/-- The while loop of the static CheckExtension; aPtrIter is the text from the
pointer to aPtrEnd.  Each pass moves the pointer forward by at least one
character, the first argument bounds the number of passes. -/
def CheckExtensionLoop (theExtName : List Char) : Nat → List Char → Bool
  | 0, _ => false
  | fuel + 1, aPtrIter =>
    if aPtrIter.isEmpty then false
    else
      let n := strcspn aPtrIter ' '
      if n = theExtName.length ∧ strncmp aPtrIter theExtName theExtName.length = 0 then true
      else CheckExtensionLoop theExtName fuel (aPtrIter.drop (n + 1))

/-- OpenGl_Context::CheckExtension (theExtString, theExtName), the static
function; theExtString may be NULL (`none`). -/
def CheckExtension (theExtString : Option (List Char)) (theExtName : List Char) : Bool :=
  match theExtString with
  | none => false
  | some s => CheckExtensionLoop theExtName s.length s

/-- The space-delimited tokens of an extension string. -/
def extensionTokens (s : List Char) : List (List Char) :=
  s.splitOn ' '

/-- C library atoi on a buffer of decimal digits (all readGlVersion passes to
it).  The result is an int of 32 bits; a value beyond INT_MAX, for which C
defines no result, is reduced modulo 2^32. -/
def atoi (s : List Char) : Int :=
  Int.bmod (s.foldl (fun acc c => 10 * acc + (c.toNat - 48)) 0 : Nat) (2 ^ 32)

/-- The loop `while (aVerStr[i] >= '0' && aVerStr[i] <= '9') ++i`: the length
of the leading run of digits. -/
def digitRun (mem : List Char) : Nat :=
  (mem.takeWhile (fun c => decide ('0' ≤ c ∧ c ≤ '9'))).length

/-- The test `glGetError() == GL_NO_ERROR && aMajor != 0 && aMinor != 0` of
readGlVersion. -/
def intQueryUsable (gl : GlDriver) : Bool :=
  gl.versionError == 0 && gl.majorVersion != 0 && gl.minorVersion != 0

/-- OpenGl_Context::readGlVersion: the values left in myGlVerMajor and
myGlVerMinor.  ResetErrors only empties the error flags of the driver. -/
def readGlVersion (gl : GlDriver) : Int × Int :=
  if intQueryUsable gl then (gl.majorVersion, gl.minorVersion)
  else
    match gl.versionString with
    | none => (0, 0)
    | some aVerStr =>
      if aVerStr.headD (Char.ofNat 0) = Char.ofNat 0 then (0, 0)
      else
        let aMajIter := digitRun aVerStr
        if aMajIter = 0 ∨ aMajIter ≥ 32 then (0, 0)
        else
          let aMajorStr := aVerStr.take aMajIter
          let aVerStr2 := aVerStr.drop (aMajIter + 1)
          let aMinIter := digitRun aVerStr2
          if aMinIter = 0 ∨ aMinIter ≥ 32 then (0, 0)
          else
            let aMinorStr := aVerStr2.take aMinIter
            if atoi aMajorStr ≤ 0 then (0, 0)
            else (atoi aMajorStr, atoi aMinorStr)

/-- The decimal value of a run of digits. -/
def decimal (s : List Char) : Nat :=
  s.foldl (fun acc c => 10 * acc + (c.toNat - 48)) 0

/-- Every character is a decimal digit. -/
def allDigits (s : List Char) : Bool :=
  s.all (fun c => decide ('0' ≤ c ∧ c ≤ '9'))

/-! ## Entry points -/

/-- Entry points of OpenGl_ArbDbg resolved by init, in the order of the source. -/
def arbDbgProcs : List String :=
  ["glDebugMessageControlARB", "glDebugMessageInsertARB", "glDebugMessageCallbackARB",
   "glGetDebugMessageLogARB"]

/-- Entry points of OpenGl_ArbVBO resolved by init. -/
def arbVBOProcs : List String :=
  ["glGenBuffersARB", "glBindBufferARB", "glBufferDataARB", "glDeleteBuffersARB"]

/-- Entry points of OpenGl_ArbTBO resolved by init. -/
def arbTBOProcs : List String :=
  ["glTexBufferARB"]

/-- Entry points of OpenGl_ArbIns resolved by init. -/
def arbInsProcs : List String :=
  ["glDrawArraysInstancedARB", "glDrawElementsInstancedARB"]

/-- Entry points of OpenGl_ExtFBO resolved by init. -/
def extFBOProcs : List String :=
  ["glGenFramebuffersEXT", "glDeleteFramebuffersEXT", "glBindFramebufferEXT",
   "glFramebufferTexture2DEXT", "glCheckFramebufferStatusEXT", "glGenRenderbuffersEXT",
   "glDeleteRenderbuffersEXT", "glBindRenderbufferEXT", "glRenderbufferStorageEXT",
   "glFramebufferRenderbufferEXT", "glGenerateMipmapEXT"]

/-- Entry points of OpenGl_ExtGS resolved by init. -/
def extGSProcs : List String :=
  ["glProgramParameteriEXT"]

/-- Entry points init requires for OpenGL 1.2 (hasGlCore12). -/
def core12Procs : List String :=
  ["glBlendColor", "glBlendEquation", "glDrawRangeElements", "glTexImage3D", "glTexSubImage3D",
   "glCopyTexSubImage3D"]

/-- Entry points init requires for OpenGL 1.3 (hasGlCore13). -/
def core13Procs : List String :=
  ["glActiveTexture", "glSampleCoverage", "glCompressedTexImage3D", "glCompressedTexImage2D",
   "glCompressedTexImage1D", "glCompressedTexSubImage3D", "glCompressedTexSubImage2D",
   "glCompressedTexSubImage1D", "glGetCompressedTexImage", "glClientActiveTexture",
   "glMultiTexCoord1d", "glMultiTexCoord1dv", "glMultiTexCoord1f", "glMultiTexCoord1fv",
   "glMultiTexCoord1i", "glMultiTexCoord1iv", "glMultiTexCoord1s", "glMultiTexCoord1sv",
   "glMultiTexCoord2d", "glMultiTexCoord2dv", "glMultiTexCoord2f", "glMultiTexCoord2fv",
   "glMultiTexCoord2i", "glMultiTexCoord2iv", "glMultiTexCoord2s", "glMultiTexCoord2sv",
   "glMultiTexCoord3d", "glMultiTexCoord3dv", "glMultiTexCoord3f", "glMultiTexCoord3fv",
   "glMultiTexCoord3i", "glMultiTexCoord3iv", "glMultiTexCoord3s", "glMultiTexCoord3sv",
   "glMultiTexCoord4d", "glMultiTexCoord4dv", "glMultiTexCoord4f", "glMultiTexCoord4fv",
   "glMultiTexCoord4i", "glMultiTexCoord4iv", "glMultiTexCoord4s", "glMultiTexCoord4sv",
   "glLoadTransposeMatrixf", "glLoadTransposeMatrixd", "glMultTransposeMatrixf",
   "glMultTransposeMatrixd"]

/-- Entry points init requires for OpenGL 1.4 (hasGlCore14). -/
def core14Procs : List String :=
  ["glBlendFuncSeparate", "glMultiDrawArrays", "glMultiDrawElements", "glPointParameterf",
   "glPointParameterfv", "glPointParameteri", "glPointParameteriv"]

/-- Entry points init requires for OpenGL 1.5 (hasGlCore15). -/
def core15Procs : List String :=
  ["glGenQueries", "glDeleteQueries", "glIsQuery", "glBeginQuery", "glEndQuery",
   "glGetQueryiv", "glGetQueryObjectiv", "glGetQueryObjectuiv", "glBindBuffer",
   "glDeleteBuffers", "glGenBuffers", "glIsBuffer", "glBufferData", "glBufferSubData",
   "glGetBufferSubData", "glMapBuffer", "glUnmapBuffer", "glGetBufferParameteriv",
   "glGetBufferPointerv"]

/-- Entry points init requires for OpenGL 2.0 (hasGlCore20). -/
def core20Procs : List String :=
  ["glBlendEquationSeparate", "glDrawBuffers", "glStencilOpSeparate", "glStencilFuncSeparate",
   "glStencilMaskSeparate", "glAttachShader", "glBindAttribLocation", "glCompileShader",
   "glCreateProgram", "glCreateShader", "glDeleteProgram", "glDeleteShader", "glDetachShader",
   "glDisableVertexAttribArray", "glEnableVertexAttribArray", "glGetActiveAttrib",
   "glGetActiveUniform", "glGetAttachedShaders", "glGetAttribLocation", "glGetProgramiv",
   "glGetProgramInfoLog", "glGetShaderiv", "glGetShaderInfoLog", "glGetShaderSource",
   "glGetUniformLocation", "glGetUniformfv", "glGetUniformiv", "glGetVertexAttribdv",
   "glGetVertexAttribfv", "glGetVertexAttribiv", "glGetVertexAttribPointerv", "glIsProgram",
   "glIsShader", "glLinkProgram", "glShaderSource", "glUseProgram", "glUniform1f",
   "glUniform2f", "glUniform3f", "glUniform4f", "glUniform1i", "glUniform2i", "glUniform3i",
   "glUniform4i", "glUniform1fv", "glUniform2fv", "glUniform3fv", "glUniform4fv",
   "glUniform1iv", "glUniform2iv", "glUniform3iv", "glUniform4iv", "glUniformMatrix2fv",
   "glUniformMatrix3fv", "glUniformMatrix4fv", "glValidateProgram", "glVertexAttrib1d",
   "glVertexAttrib1dv", "glVertexAttrib1f", "glVertexAttrib1fv", "glVertexAttrib1s",
   "glVertexAttrib1sv", "glVertexAttrib2d", "glVertexAttrib2dv", "glVertexAttrib2f",
   "glVertexAttrib2fv", "glVertexAttrib2s", "glVertexAttrib2sv", "glVertexAttrib3d",
   "glVertexAttrib3dv", "glVertexAttrib3f", "glVertexAttrib3fv", "glVertexAttrib3s",
   "glVertexAttrib3sv", "glVertexAttrib4Nbv", "glVertexAttrib4Niv", "glVertexAttrib4Nsv",
   "glVertexAttrib4Nub", "glVertexAttrib4Nubv", "glVertexAttrib4Nuiv", "glVertexAttrib4Nusv",
   "glVertexAttrib4bv", "glVertexAttrib4d", "glVertexAttrib4dv", "glVertexAttrib4f",
   "glVertexAttrib4fv", "glVertexAttrib4iv", "glVertexAttrib4s", "glVertexAttrib4sv",
   "glVertexAttrib4ubv", "glVertexAttrib4uiv", "glVertexAttrib4usv", "glVertexAttribPointer"]

/-! ## init -/

/-- Modelled from the spec: OpenGl_Context::FindProc is a template of the
header, which is not among the sources.  It stores findProc (theFuncName) in
the pointer and answers whether the pointer "resolved", that is, is not NULL. -/
def FindProc (gl : GlDriver) (theFuncName : String) : Nat × Bool :=
  (gl.procAddress theFuncName, gl.procAddress theFuncName != 0)

/-- A chain `FindProcShort (s, f1) && FindProcShort (s, f2) && ...` (or its
negated form with `||`) on a structure: the calls are made from left to right
up to the first that fails; the table lists the pointers stored so far, the
other fields of the structure keep the 0 of memset. -/
def findProcs (gl : GlDriver) : List String → ProcTable → ProcTable × Bool
  | [], t => (t, true)
  | f :: fs, t =>
    if (FindProc gl f).2 then findProcs gl fs (t ++ [(f, (FindProc gl f).1)])
    else (t ++ [(f, (FindProc gl f).1)], false)

/-- The block of init for one optional group: the structure is allocated and
zeroed, its pointers resolved, and deleted again (NULL) if one of them fails. -/
def resolveGroup (gl : GlDriver) (theProcs : List String) : Option ProcTable :=
  if (findProcs gl theProcs []).2 then some (findProcs gl theProcs []).1 else none

/-- Modelled from the spec: OpenGl_Context::IsGlGreaterEqual is defined in the
header, which is not among the sources; the spec words it as "the hardware
reports version ≥ N's minimum". -/
def IsGlGreaterEqual (theVersion : Int × Int) (theVerMajor theVerMinor : Int) : Bool :=
  decide (theVersion.1 > theVerMajor) ||
    (decide (theVersion.1 = theVerMajor) && decide (theVersion.2 ≥ theVerMinor))

/-- A tier of the ladder is satisfied: the reported version reaches it and
every entry point it needs resolves. -/
def tierSatisfied (gl : GlDriver) (theVersion : Int × Int) (theVerMajor theVerMinor : Int)
    (theProcs : List String) : Bool :=
  IsGlGreaterEqual theVersion theVerMajor theVerMinor &&
    theProcs.all (fun f => gl.procAddress f != 0)

/-- One `Standard_Boolean hasGlCoreXY = IsGlGreaterEqual (X, Y) && FindProcShort ...`
of init on the structure myGlCore20. -/
def hasGlCore (gl : GlDriver) (theVersion : Int × Int) (theVerMajor theVerMinor : Int)
    (theProcs : List String) (t : ProcTable) : ProcTable × Bool :=
  if IsGlGreaterEqual theVersion theVerMajor theVerMinor then findProcs gl theProcs t
  else (t, false)

namespace Context

/-- OpenGl_Context::CheckExtension (theExtName), the member function. -/
def CheckExtension (gl : GlDriver) (theExtName : String) : Bool :=
  OpenGl.CheckExtension gl.extensions theExtName.toList

/-- The version the context advertises: myGlVerMajor and myGlVerMinor. -/
def version (this : Context) : Int × Int :=
  (this.myGlVerMajor, this.myGlVerMinor)

/-- The end of init, from `if (!hasGlCore12)` on. -/
def ladder (this : Context) (hasGlCore12 hasGlCore13 hasGlCore14 hasGlCore15 hasGlCore20 : Bool) :
    Context :=
  if !hasGlCore12 then { this with myGlVerMajor := 1, myGlVerMinor := 1 }
  else
    let c12 := { this with core12 := this.myGlCore20 }
    if !hasGlCore13 then { c12 with myGlVerMajor := 1, myGlVerMinor := 2 }
    else
      let c13 := { c12 with core13 := this.myGlCore20 }
      if !hasGlCore14 then { c13 with myGlVerMajor := 1, myGlVerMinor := 3 }
      else
        let c14 := { c13 with core14 := this.myGlCore20 }
        if !hasGlCore15 then { c14 with myGlVerMajor := 1, myGlVerMinor := 4 }
        else
          let c15 := { c14 with core15 := this.myGlCore20 }
          if !hasGlCore20 then { c15 with myGlVerMajor := 1, myGlVerMinor := 5 }
          else { c15 with core20 := this.myGlCore20 }

/-- The first part of init: the version, the boolean capabilities and the
numeric limits, up to `myClippingState.Init (myMaxClipPlanes)`. -/
def initLimits (this : Context) (gl : GlDriver) : Context :=
  let c0 := { this with
    myGlVerMajor := (readGlVersion gl).1
    myGlVerMinor := (readGlVersion gl).2
    arbNPTW := CheckExtension gl "GL_ARB_texture_non_power_of_two"
    extBgra := CheckExtension gl "GL_EXT_bgra"
    extAnis := CheckExtension gl "GL_EXT_texture_filter_anisotropic"
    extPDS := CheckExtension gl "GL_EXT_packed_depth_stencil"
    atiMem := CheckExtension gl "GL_ATI_meminfo"
    nvxMem := CheckExtension gl "GL_NVX_gpu_memory_info"
    myMaxClipPlanes := gl.maxClipPlanes.getD this.myMaxClipPlanes
    myMaxTexDim := gl.maxTextureSize.getD this.myMaxTexDim
    myIsStereoBuffers := decide (gl.stereo = 1) }
  { c0 with
    myAnisoMax := if c0.extAnis then gl.maxAnisotropy.getD c0.myAnisoMax else c0.myAnisoMax }

/-- The second part of init: the six optional groups, from
`if (CheckExtension ("GL_ARB_debug_output"))` to the block of extGS. -/
def initGroups (this : Context) (gl : GlDriver) : Context :=
  { this with
    arbDbg := if CheckExtension gl "GL_ARB_debug_output" then resolveGroup gl arbDbgProcs
              else this.arbDbg
    arbVBO := if CheckExtension gl "GL_ARB_vertex_buffer_object" then resolveGroup gl arbVBOProcs
              else this.arbVBO
    arbTBO := if CheckExtension gl "GL_ARB_texture_buffer_object" then resolveGroup gl arbTBOProcs
              else this.arbTBO
    arbIns := if CheckExtension gl "GL_ARB_draw_instanced" then resolveGroup gl arbInsProcs
              else this.arbIns
    extFBO := if CheckExtension gl "GL_EXT_framebuffer_object" then resolveGroup gl extFBOProcs
              else this.extFBO
    extGS := if CheckExtension gl "GL_EXT_geometry_shader4" then resolveGroup gl extGSProcs
             else this.extGS }

/-- OpenGl_Context::init: the two parts above, then myGlCore20 is allocated and
zeroed, the five hasGlCoreXY are computed on it and the ladder is walked. -/
def init (this : Context) (gl : GlDriver) : Context :=
  let c := (this.initLimits gl).initGroups gl
  let h12 := hasGlCore gl c.version 1 2 core12Procs []
  let h13 := hasGlCore gl c.version 1 3 core13Procs h12.1
  let h14 := hasGlCore gl c.version 1 4 core14Procs h13.1
  let h15 := hasGlCore gl c.version 1 5 core15Procs h14.1
  let h20 := hasGlCore gl c.version 2 0 core20Procs h15.1
  ladder { c with myGlCore20 := some h20.1 } h12.2 h13.2 h14.2 h15.2 h20.2

end Context

/-! ## Construction, and states used as examples -/

/-- The member initialisers of the constructor OpenGl_Context::OpenGl_Context,
the three containers being allocated at the given addresses.  The constructor
gives no value to myDisplay, myWindow and myGContext; Init writes them before
it reads them, they are 0 here. -/
def constructed (theResources theDelayed theQueue : Addr) : Context :=
  { core12 := none, core13 := none, core14 := none, core15 := none, core20 := none,
    arbNPTW := false, arbVBO := none, arbTBO := none, arbIns := none, arbDbg := none,
    extFBO := none, extGS := none, extBgra := false, extAnis := false, extPDS := false,
    atiMem := false, nvxMem := false, mySharedResources := theResources,
    myDelayed := theDelayed, myReleaseQueue := theQueue, myGlCore20 := none, myAnisoMax := 1,
    myMaxTexDim := 1024, myMaxClipPlanes := 6, myGlVerMajor := 0, myGlVerMinor := 0,
    myIsInitialized := false, myIsStereoBuffers := false,
    myDisplay := 0, myWindow := 0, myGContext := 0 }

/-- OpenGl_Context::OpenGl_Context: `new OpenGl_ResourcesMap()`,
`new OpenGl_DelayReleaseMap()` and `new OpenGl_ResourcesQueue()` give three
empty containers, each held by the one handle of the new context. -/
def OpenGl_Context (w : World) (theResources theDelayed theQueue : Addr) : Context × World :=
  (constructed theResources theDelayed theQueue,
   { w with
      resourcesMaps := Function.update w.resourcesMaps theResources []
      resourcesMapRefs := Function.update w.resourcesMapRefs theResources 1
      delayMaps := Function.update w.delayMaps theDelayed []
      queues := Function.update w.queues theQueue []
      queueRefs := Function.update w.queueRefs theQueue 1 })

/-- A world whose registry at address 0 binds "tex" to resource 7, on which n
handles exist; nothing is queued. -/
def textureWorld (n : Nat) : World :=
  { refCount := fun r => if r = 7 then n else 0, released := [],
    resourcesMaps := fun a => if a = 0 then [("tex", 7)] else [],
    resourcesMapRefs := fun a => if a = 0 then 1 else 0,
    delayMaps := fun _ => [], queues := fun _ => [],
    queueRefs := fun a => if a = 0 then 1 else 0, messages := [] }

/-- A world without any resource: every container is empty. -/
def emptyWorld : World :=
  { refCount := fun _ => 0, released := [],
    resourcesMaps := fun _ => [], resourcesMapRefs := fun a => if a = 0 then 1 else 0,
    delayMaps := fun _ => [], queues := fun _ => [],
    queueRefs := fun a => if a = 0 then 1 else 0, messages := [] }

/-- A driver that answers GL_INVALID_ENUM to the integer version queries,
resolves every entry point and advertises no extension; theVersion is the
memory behind the pointer glGetString (GL_VERSION) returns. -/
def legacyDriver (theVersion : List Char) : GlDriver :=
  { majorVersion := 0, minorVersion := 0, versionError := 0x0500,
    versionString := some theVersion, extensions := some [],
    procAddress := fun _ => 1, maxClipPlanes := some 8, maxTextureSize := some 4096,
    maxAnisotropy := none, stereo := 0 }

/-- A driver reporting version 3.0 whose only unresolved entry point is
glActiveTexture, of the 1.3 tier. -/
def lyingDriver : GlDriver :=
  { majorVersion := 0, minorVersion := 0, versionError := 0x0500,
    versionString := some "3.0".toList,
    extensions := some "GL_EXT_bgra GL_ARB_draw_instanced".toList,
    procAddress := fun f => if f = "glActiveTexture" then 0 else 1,
    maxClipPlanes := some 8, maxTextureSize := some 4096,
    maxAnisotropy := none, stereo := 0 }

/-! ## Predicates on states -/

namespace Context

/-- Every handle is counted: the counter of a resource is at least the number
of handles the registry and the queue of the context hold on it. -/
def HandlesCounted (this : Context) (w : World) : Prop :=
  ∀ r : ResId,
    ((w.resourcesMaps this.mySharedResources).map Prod.snd).count r
      + (w.queues this.myReleaseQueue).count r ≤ w.refCount r

/-- The registry binds K to r through the only handle on r, and the release
routine of r has been called n times. -/
def OnlyHandle (this : Context) (K : Key) (r : ResId) (n : Nat) (w : World) : Prop :=
  (w.resourcesMaps this.mySharedResources).Find K = some r ∧ w.refCount r = 1 ∧
  (∀ e ∈ w.resourcesMaps this.mySharedResources, e.2 = r → e.1 = K) ∧
  w.releaseCount r = n

/-- The registry no longer binds K nor any key to r, and the release routine
of r has been called n times. -/
def Gone (this : Context) (K : Key) (r : ResId) (n : Nat) (w : World) : Prop :=
  (w.resourcesMaps this.mySharedResources).Find K = none ∧
  (∀ e ∈ w.resourcesMaps this.mySharedResources, e.2 ≠ r) ∧
  w.releaseCount r = n

/-- The nodes of myDelayed after one ReleaseDelayed: every value incremented,
the nodes whose value went beyond 2 removed. -/
def afterSweep (d : DataMap Key Int) : DataMap Key Int :=
  (d.map (fun e => (e.1, e.2 + 1))).filter
    (fun e => !decide (e.1 ∈ (d.filter (fun e => !decide (e.2 + 1 ≤ 2))).map Prod.fst))

end Context

/-! ## Message sink -/

/-- OpenGl_Context::PushMessage: the text is assembled from the tables
THE_DBGMSG_SOURCES and THE_DBGMSG_TYPES and sent to `Messenger()` with its
gravity.  The numbers are the constants of GL_ARB_debug_output:
GL_DEBUG_SOURCE_API_ARB = 0x8246 to GL_DEBUG_SOURCE_OTHER_ARB = 0x824B,
GL_DEBUG_TYPE_ERROR_ARB = 0x824C to GL_DEBUG_TYPE_OTHER_ARB = 0x8251,
GL_DEBUG_SEVERITY_HIGH_ARB = 0x9146 and GL_DEBUG_SEVERITY_MEDIUM_ARB = 0x9147. -/
def PushMessage (w : World) (theSource theType theId theSeverity : Nat)
    (theMessage : String) : World :=
  let aSrc := if 0x8246 ≤ theSource ∧ theSource ≤ 0x824B then
      [".OpenGL", ".WinSystem", ".GLSL", ".3rdParty", "", ".Other"].getD (theSource - 0x8246) ""
    else "UNKNOWN"
  let aType := if 0x824C ≤ theType ∧ theType ≤ 0x8251 then
      ["Error", "Deprecated", "Undef. behavior", "Portability", "Performance",
        "Other"].getD (theType - 0x824C) ""
    else "UNKNOWN"
  let aSev := if theSeverity = 0x9146 then "High"
    else if theSeverity = 0x9147 then "Medium" else "Low"
  let aGrav := if theSeverity = 0x9146 then Message_Gravity.Message_Alarm
    else if theSeverity = 0x9147 then Message_Gravity.Message_Warning
    else Message_Gravity.Message_Info
  let aMsg := "TKOpenGl" ++ aSrc ++ " | Type: " ++ aType ++ " | ID: " ++
    toString (Int.bmod (theId : Int) (2 ^ 32)) ++ " | Severity: " ++ aSev ++
    " | Message:\n  " ++ theMessage
  { w with messages := w.messages ++ [(aMsg, aGrav)] }

/-! ## Init -/

/-- What the window system answers to Init: glXGetCurrentDisplay,
glXGetCurrentContext and glXGetCurrentDrawable, 0 for NULL (on Windows
wglGetCurrentDC and wglGetCurrentContext). -/
structure WindowSystem where
  currentDisplay : Nat
  currentContext : Nat
  currentDrawable : Nat

namespace Context

/-- OpenGl_Context::Init (), the overload without argument. -/
def Init (this : Context) (ws : WindowSystem) (gl : GlDriver) : Bool × Context :=
  if this.myIsInitialized then (true, this)
  else
    let c := { this with
      myDisplay := ws.currentDisplay
      myGContext := ws.currentContext
      myWindow := ws.currentDrawable }
    if c.myGContext = 0 then (false, c)
    else (true, { c.init gl with myIsInitialized := true })

/-! ## Destruction -/

/-- The loop of the destructor over the registry: `anIter.Value()->Release (this)`
on every node, in the order of the map. -/
def releaseAll (w : World) : List ResId → World
  | [] => w
  | r :: rs => releaseAll (w.Release r) rs

/-- The statement `mySharedResources.Nullify()`: the OpenGl_ResourcesMap loses one
handle and is destroyed, with the handles of its nodes, when that was the last. -/
def nullifyResourcesMap (w : World) (theMap : Addr) : World :=
  let w1 := { w with resourcesMapRefs :=
                Function.update w.resourcesMapRefs theMap (w.resourcesMapRefs theMap - 1) }
  if w1.resourcesMapRefs theMap = 0 then
    { dropAll w1 ((w1.resourcesMaps theMap).map Prod.snd) with
        resourcesMaps := Function.update w1.resourcesMaps theMap [] }
  else w1

/-- Destruction of the member myReleaseQueue: the OpenGl_ResourcesQueue loses one
handle and is destroyed, with the handles it holds, when that was the last. -/
def nullifyQueue (w : World) (theQueue : Addr) : World :=
  let w1 := { w with queueRefs := Function.update w.queueRefs theQueue (w.queueRefs theQueue - 1) }
  if w1.queueRefs theQueue = 0 then
    { dropAll w1 (w1.queues theQueue) with queues := Function.update w1.queues theQueue [] }
  else w1

/-- OpenGl_Context::~OpenGl_Context, as far as the registry and the queues go:
ReleaseDelayed, the release of every bound resource when this context holds the
last handle on the registry, the two Nullify, and the destruction of the member
myReleaseQueue.  The counter of the OpenGl_DelayReleaseMap is not modelled, its
nodes hold no handle. -/
def destroy (this : Context) (w : World) : World :=
  let w1 := this.ReleaseDelayed w
  let w2 := if w1.resourcesMapRefs this.mySharedResources ≤ 1 then
      releaseAll w1 ((w1.resourcesMaps this.mySharedResources).map Prod.snd)
    else w1
  nullifyQueue (nullifyResourcesMap w2 this.mySharedResources) this.myReleaseQueue

/-! ## Sequences of calls -/

/-- A call on a context of the sharing group, or a caller copying or destroying
a handle it holds on a resource. -/
inductive Call where
  | ShareResource (theKey : Key) (theResource : Option ResId)
  | ReleaseResource (theKey : Key) (theToDelay : Bool)
  | DelayedRelease (theResource : ResId)
  | ReleaseDelayed
  | copyHandle (theResource : ResId)
  | dropHandle (theResource : ResId)

/-- One call; the second component lists the resources placed so far, in the
registry by a ShareResource that answered true or in the immediate-release
queue by DelayedRelease. -/
def call (this : Context) (s : World × List ResId) : Call → World × List ResId
  | .ShareResource k none => ((this.ShareResource s.1 k none).2, s.2)
  | .ShareResource k (some r) =>
    ((this.ShareResource s.1 k (some r)).2,
      if (this.ShareResource s.1 k (some r)).1 then s.2 ++ [r] else s.2)
  | .ReleaseResource k d => (this.ReleaseResource s.1 k d, s.2)
  | .DelayedRelease r => (this.DelayedRelease s.1 r, s.2 ++ [r])
  | .ReleaseDelayed => (this.ReleaseDelayed s.1, s.2)
  | .copyHandle r => (s.1.copyHandle r, s.2)
  | .dropHandle r => (s.1.dropHandle r, s.2)

/-- A sequence of calls, from a world in which nothing has been placed yet. -/
def calls (this : Context) (w : World) (cs : List Call) : World × List ResId :=
  cs.foldl (call this) (w, [])

/-- The calls that can take a key out of the registry: ReleaseResource on that
key, and ReleaseDelayed, whose second loop unbinds the keys it finds expired in
the delay map.  After a sequence holding none of them the key has not been
released. -/
def releasesKey (theKey : Key) : Call → Bool
  | .ReleaseResource k _ => decide (k = theKey)
  | .ReleaseDelayed => true
  | _ => false

/-- The world after the first loop of ReleaseDelayed: the queue has been emptied,
each of its resources released. -/
def drained (this : Context) (w : World) : World :=
  { releaseQueue w (w.queues this.myReleaseQueue) with
      queues := Function.update w.queues this.myReleaseQueue [] }

/-- The state of the second loop of ReleaseDelayed when it ends. -/
def swept (this : Context) (w : World) : DelayedLoop :=
  (w.delayMaps this.myDelayed).foldl (delayedStep this)
    { world := drained this w, visited := [], aDeadList := [] }

/-- The world after ReleaseResource (K, true), ReleaseResource (K, false) and
ShareResource (K, R2), the caller of the last having let go of the handles it
held on R2. -/
def reRegistered (this : Context) (w : World) (K : Key) (R2 : ResId) : World :=
  ((this.ShareResource (this.ReleaseResource (this.ReleaseResource w K true) K false)
      K (some R2)).2).dropHandles R2
    ((this.ReleaseResource (this.ReleaseResource w K true) K false).refCount R2)

/-- The keys of a map are pairwise distinct. -/
def DistinctKeys {V : Type} (m : DataMap Key V) : Prop :=
  (m.map Prod.fst).Nodup

/-- The keys of the registry are distinct and, for every resource r, the calls of
its release routine plus the nodes of the registry and the entries of the
immediate-release queue that hold it add up to n r. -/
def Balanced (this : Context) (n : ResId → Nat) (w : World) : Prop :=
  DistinctKeys (w.resourcesMaps this.mySharedResources) ∧
  ∀ r, w.releaseCount r
      + ((w.resourcesMaps this.mySharedResources).map Prod.snd).count r
      + (w.queues this.myReleaseQueue).count r = n r

/-- The registry binds K to r, other handles on r exist, and the release routine
of r has been called n times. -/
def Reacquired (this : Context) (K : Key) (r : ResId) (n : Nat) (w : World) : Prop :=
  (w.resourcesMaps this.mySharedResources).Find K = some r ∧ 1 < w.refCount r ∧
  w.releaseCount r = n

end Context

/-- Lexicographic order on versions (major, minor). -/
def versionLe (a b : Int × Int) : Prop :=
  a.1 < b.1 ∨ (a.1 = b.1 ∧ a.2 ≤ b.2)

instance (a b : Int × Int) : Decidable (versionLe a b) := by
  unfold versionLe; infer_instance

/-- A world whose deferred-release queue at address 0 holds the key "gone" with
the value 2, a key the registry does not bind. -/
def staleWorld : World :=
  { refCount := fun _ => 0, released := [],
    resourcesMaps := fun _ => [], resourcesMapRefs := fun a => if a = 0 then 1 else 0,
    delayMaps := fun a => if a = 0 then [("gone", 2)] else [], queues := fun _ => [],
    queueRefs := fun a => if a = 0 then 1 else 0, messages := [] }

/-- A world like textureWorld whose registry is held by two contexts and whose
deferred-release queue holds "tex" with the value theValue. -/
def sharedWorld (n : Nat) (theValue : Int) : World :=
  { refCount := fun r => if r = 7 then n else 0, released := [],
    resourcesMaps := fun a => if a = 0 then [("tex", 7)] else [],
    resourcesMapRefs := fun a => if a = 0 then 2 else 0,
    delayMaps := fun a => if a = 0 then [("tex", theValue)] else [], queues := fun _ => [],
    queueRefs := fun a => if a = 0 then 2 else 0, messages := [] }

/-- A driver whose integer version query answers (theMajor, theMinor) without
error and whose version string is theVersion. -/
def modernDriver (theMajor theMinor : Int) (theVersion : List Char) : GlDriver :=
  { majorVersion := theMajor, minorVersion := theMinor, versionError := 0,
    versionString := some theVersion, extensions := some [],
    procAddress := fun _ => 1, maxClipPlanes := some 8, maxTextureSize := some 4096,
    maxAnisotropy := none, stereo := 0 }

/-! # Theorems -/

/-! ## Lemmas on DataMap -/

namespace DataMap

variable {K V : Type} [DecidableEq K]

theorem IsBound_nil (k : K) : IsBound ([] : DataMap K V) k = false := rfl

theorem IsBound_cons (e : K × V) (m : DataMap K V) (k : K) :
    IsBound (e :: m) k = (decide (e.1 = k) || IsBound m k) := rfl

theorem IsBound_append (m n : DataMap K V) (k : K) :
    IsBound (m ++ n) k = (IsBound m k || IsBound n k) := by
  simp [IsBound]

theorem Find_eq_none_of_not_bound (m : DataMap K V) (k : K) (h : IsBound m k = false) :
    Find m k = none := by
  induction m with
  | nil => rfl
  | cons e m ih =>
    simp only [IsBound_cons, Bool.or_eq_false_iff, decide_eq_false_iff_not] at h
    simp [Find, h.1, ih h.2]

theorem IsBound_of_Find (m : DataMap K V) (k : K) (v : V) (h : Find m k = some v) :
    IsBound m k = true := by
  cases hb : IsBound m k with
  | true => rfl
  | false => rw [Find_eq_none_of_not_bound m k hb] at h; cases h

theorem Find_append_of_Find (m n : DataMap K V) (k : K) (v : V) (h : Find m k = some v) :
    Find (m ++ n) k = some v := by
  induction m with
  | nil => cases h
  | cons e m ih =>
    by_cases he : e.1 = k
    · simpa [Find, he] using h
    · simp only [Find, he, if_false] at h
      simp [Find, he, ih h]

theorem Find_append_of_not_bound (m n : DataMap K V) (k : K) (h : IsBound m k = false) :
    Find (m ++ n) k = Find n k := by
  induction m with
  | nil => rfl
  | cons e m ih =>
    simp only [IsBound_cons, Bool.or_eq_false_iff, decide_eq_false_iff_not] at h
    simp [Find, h.1, ih h.2]

theorem IsBound_UnBind_self (m : DataMap K V) (k : K) : IsBound (UnBind m k) k = false := by
  simp [IsBound, UnBind]

theorem IsBound_UnBind_ne (m : DataMap K V) (k k' : K) (h : k' ≠ k) :
    IsBound (UnBind m k') k = IsBound m k := by
  induction m with
  | nil => rfl
  | cons e m ih =>
    by_cases he : e.1 = k'
    · have : e.1 ≠ k := fun h' => h (he.symm.trans h')
      have hu : UnBind (e :: m) k' = UnBind m k' := by simp [UnBind, he]
      rw [hu, ih, IsBound_cons]; simp [this]
    · have hu : UnBind (e :: m) k' = e :: UnBind m k' := by simp [UnBind, he]
      rw [hu, IsBound_cons, IsBound_cons, ih]

theorem Find_UnBind_ne (m : DataMap K V) (k k' : K) (h : k' ≠ k) :
    Find (UnBind m k') k = Find m k := by
  induction m with
  | nil => rfl
  | cons e m ih =>
    by_cases he : e.1 = k'
    · have : e.1 ≠ k := fun h' => h (he.symm.trans h')
      have hu : UnBind (e :: m) k' = UnBind m k' := by simp [UnBind, he]
      rw [hu, ih]; simp [Find, this]
    · have hu : UnBind (e :: m) k' = e :: UnBind m k' := by simp [UnBind, he]
      rw [hu]; simp only [Find, ih]

theorem mem_UnBind (m : DataMap K V) (k : K) (e : K × V) (h : e ∈ UnBind m k) :
    e ∈ m ∧ e.1 ≠ k := by
  simpa [UnBind] using h

theorem mem_of_Find (m : DataMap K V) (k : K) (v : V) (h : Find m k = some v) : (k, v) ∈ m := by
  induction m with
  | nil => cases h
  | cons e m ih =>
    by_cases he : e.1 = k
    · simp only [Find, he, if_true, Option.some.injEq] at h
      have : e = (k, v) := by cases e; simp_all
      simp [this]
    · simp only [Find, he, if_false] at h
      exact List.mem_cons_of_mem _ (ih h)

end DataMap

namespace Context

/-! ## Lemmas on handles -/

theorem dropHandles_refCount (w : World) (r : ResId) (n : Nat) :
    (w.dropHandles r n).refCount r = w.refCount r - n := by
  induction n generalizing w with
  | zero => rfl
  | succ n ih =>
    simp only [World.dropHandles]
    rw [ih]
    simp only [World.dropHandle, Function.update_same]
    omega

theorem dropHandles_fields (w : World) (r : ResId) (n : Nat) :
    (w.dropHandles r n).released = w.released ∧
    (w.dropHandles r n).resourcesMaps = w.resourcesMaps ∧
    (w.dropHandles r n).delayMaps = w.delayMaps ∧
    (w.dropHandles r n).queues = w.queues := by
  induction n generalizing w with
  | zero => exact ⟨rfl, rfl, rfl, rfl⟩
  | succ n ih =>
    simp only [World.dropHandles]
    obtain ⟨h1, h2, h3, h4⟩ := ih (w.dropHandle r)
    exact ⟨h1, h2, h3, h4⟩

theorem GetResource_eq_Find (this : Context) (w : World) (k : Key) :
    this.GetResource w k = (w.resourcesMaps this.mySharedResources).Find k := by
  unfold GetResource
  cases hb : (w.resourcesMaps this.mySharedResources).IsBound k with
  | true => simp
  | false => simp [DataMap.Find_eq_none_of_not_bound _ _ hb]

/-- On a key that is bound Bind answers false and leaves the map as it is;
ShareResource forwards both, so the world is the one before the call. -/
theorem ShareResource_bound (this : Context) (w : World) (K : Key) (R : Option ResId)
    (hb : (w.resourcesMaps this.mySharedResources).IsBound K = true) :
    this.ShareResource w K R = (false, w) := by
  cases R with
  | none => rfl
  | some r =>
    unfold ShareResource
    by_cases hE : K.isEmpty = true
    · simp [hE]
    · simp [hE, DataMap.Bind, hb]

/-- ShareResource on any key leaves a bound key with its resource: Bind adds a
node at most. -/
theorem ShareResource_keeps_bound (this : Context) (w : World) (K k : Key) (R : ResId)
    (r : Option ResId) (h : this.GetResource w K = some R) :
    this.GetResource (this.ShareResource w k r).2 K = some R := by
  cases hb : (w.resourcesMaps this.mySharedResources).IsBound k with
  | true => rw [ShareResource_bound this w k r hb]; exact h
  | false =>
    cases r with
    | none => exact h
    | some r =>
      rw [GetResource_eq_Find] at h ⊢
      unfold ShareResource
      by_cases hE : k.isEmpty = true
      · simpa [hE] using h
      · simpa [hE, DataMap.Bind, hb] using DataMap.Find_append_of_Find _ _ _ _ h

/-- ReleaseResource on another key leaves a bound key with its resource. -/
theorem ReleaseResource_keeps_bound (this : Context) (w : World) (K k : Key) (R : ResId)
    (d : Bool) (hk : k ≠ K) (h : this.GetResource w K = some R) :
    this.GetResource (this.ReleaseResource w k d) K = some R := by
  rw [GetResource_eq_Find] at h ⊢
  unfold ReleaseResource
  split
  · exact h
  · split
    · exact h
    · split
      · exact h
      · split
        · exact h
        · simpa [World.dropHandle, World.Release, DataMap.Find_UnBind_ne _ _ _ hk] using h

/-- A call that is neither ReleaseResource on the key nor ReleaseDelayed leaves
the key bound to its resource. -/
theorem call_keeps_bound (this : Context) (s : World × List ResId) (c : Call) (K : Key)
    (R : ResId) (hc : releasesKey K c = false) (h : this.GetResource s.1 K = some R) :
    this.GetResource (call this s c).1 K = some R := by
  cases c with
  | ShareResource k r =>
    cases r with
    | none => exact h
    | some r => exact ShareResource_keeps_bound this s.1 K k R (some r) h
  | ReleaseResource k d =>
    have hk : k ≠ K := by simpa [releasesKey] using hc
    exact ReleaseResource_keeps_bound this s.1 K k R d hk h
  | DelayedRelease r => exact h
  | ReleaseDelayed => simp [releasesKey] at hc
  | copyHandle r => exact h
  | dropHandle r => exact h

/-- A sequence of such calls leaves the key bound to its resource. -/
theorem calls_keeps_bound (this : Context) (cs : List Call) (s : World × List ResId) (K : Key)
    (R : ResId) (hc : ∀ c ∈ cs, releasesKey K c = false)
    (h : this.GetResource s.1 K = some R) :
    this.GetResource (cs.foldl (call this) s).1 K = some R := by
  induction cs generalizing s with
  | nil => exact h
  | cons c cs ih =>
    simp only [List.foldl_cons]
    exact ih _ (fun c' hc' => hc c' (List.mem_cons_of_mem _ hc'))
      (call_keeps_bound this s c K R (hc c (List.mem_cons_self _ _)) h)

/-- C3: for a bound key whose resource has a reference count greater than 1,
ReleaseResource with either value of theToDelay changes nothing: the world is
the same, so the key stays bound to the same resource, no release routine has
been called and the deferred-release queue is what it was. -/
theorem ReleaseResource_shared_is_noop (this : Context) (w : World) (K : Key) (r : ResId)
    (theToDelay : Bool)
    (hK : this.GetResource w K = some r) (hcnt : 1 < w.refCount r) :
    this.ReleaseResource w K theToDelay = w ∧
    this.GetResource (this.ReleaseResource w K theToDelay) K = some r ∧
    (this.ReleaseResource w K theToDelay).released = w.released ∧
    (this.ReleaseResource w K theToDelay).delayMaps this.myDelayed = w.delayMaps this.myDelayed := by
  have hF := hK
  rw [GetResource_eq_Find] at hF
  have h : this.ReleaseResource w K theToDelay = w := by
    unfold ReleaseResource
    simp [DataMap.IsBound_of_Find _ _ _ hF, hF, hcnt]
  rw [h]
  exact ⟨rfl, hK, rfl, rfl⟩

theorem ReleaseResource_shared_is_noop_witness :
    (constructed 0 0 0).ReleaseResource (textureWorld 2) "tex" false = textureWorld 2 ∧
    (constructed 0 0 0).GetResource
      ((constructed 0 0 0).ReleaseResource (textureWorld 2) "tex" false) "tex" = some 7 ∧
    ((constructed 0 0 0).ReleaseResource (textureWorld 2) "tex" false).released
      = (textureWorld 2).released ∧
    ((constructed 0 0 0).ReleaseResource (textureWorld 2) "tex" false).delayMaps
        (constructed 0 0 0).myDelayed
      = (textureWorld 2).delayMaps (constructed 0 0 0).myDelayed :=
  ReleaseResource_shared_is_noop (constructed 0 0 0) (textureWorld 2) "tex" 7 false
    (by decide) (by decide)

/-- C2: when ShareResource (K, R1) answered true for a non-empty key K, and K
has not been released since, ShareResource (K, R2) answers false and leaves the
world, registry included, as it is, so that GetResource (K) still gives R1.
"Not released since" is taken three ways: the second call follows the first at
once; any sequence of calls lies between the two, none of them a
ReleaseResource on K or a ReleaseDelayed; the second call is made in any world
whatever in which K is still bound to R1. -/
theorem ShareResource_twice_fails (this : Context) (w : World) (K : Key) (R1 R2 : ResId)
    (hne : K ≠ "")
    (h1 : (this.ShareResource w K (some R1)).1 = true) :
    (this.ShareResource (this.ShareResource w K (some R1)).2 K (some R2)
        = (false, (this.ShareResource w K (some R1)).2) ∧
      this.GetResource (this.ShareResource w K (some R1)).2 K = some R1) ∧
    (∀ cs : List Call, (∀ c ∈ cs, releasesKey K c = false) →
      this.ShareResource (calls this (this.ShareResource w K (some R1)).2 cs).1 K (some R2)
        = (false, (calls this (this.ShareResource w K (some R1)).2 cs).1) ∧
      this.GetResource (calls this (this.ShareResource w K (some R1)).2 cs).1 K = some R1) ∧
    (∀ w' : World, this.GetResource w' K = some R1 →
      this.ShareResource w' K (some R2) = (false, w') ∧
      this.GetResource (this.ShareResource w' K (some R2)).2 K = some R1) := by
  have hE : K.isEmpty = false := by
    cases h : K.isEmpty with
    | false => rfl
    | true => exact absurd ((String.isEmpty_iff K).1 h) hne
  have hgen : ∀ w' : World, this.GetResource w' K = some R1 →
      this.ShareResource w' K (some R2) = (false, w') ∧
      this.GetResource (this.ShareResource w' K (some R2)).2 K = some R1 := by
    intro w' hw'
    have hF := hw'
    rw [GetResource_eq_Find] at hF
    have hs := ShareResource_bound this w' K (some R2) (DataMap.IsBound_of_Find _ _ _ hF)
    rw [hs]
    exact ⟨rfl, hw'⟩
  have hfirst : this.GetResource (this.ShareResource w K (some R1)).2 K = some R1 := by
    cases hb : (w.resourcesMaps this.mySharedResources).IsBound K with
    | true =>
      rw [ShareResource_bound this w K _ hb] at h1
      cases h1
    | false =>
      rw [GetResource_eq_Find]
      simp [ShareResource, hE, DataMap.Bind, hb, DataMap.Find_append_of_not_bound _ _ _ hb,
        DataMap.Find]
  refine ⟨⟨(hgen _ hfirst).1, hfirst⟩, ?_, hgen⟩
  intro cs hcs
  have hk := calls_keeps_bound this cs ((this.ShareResource w K (some R1)).2, []) K R1 hcs hfirst
  exact ⟨(hgen _ hk).1, hk⟩

theorem ShareResource_twice_fails_witness :
    ((constructed 0 0 0).ShareResource
          ((constructed 0 0 0).ShareResource emptyWorld "vbo" (some 3)).2 "vbo" (some 4)
        = (false, ((constructed 0 0 0).ShareResource emptyWorld "vbo" (some 3)).2) ∧
      (constructed 0 0 0).GetResource
        ((constructed 0 0 0).ShareResource emptyWorld "vbo" (some 3)).2 "vbo" = some 3) ∧
    ((constructed 0 0 0).ShareResource
          (calls (constructed 0 0 0)
            ((constructed 0 0 0).ShareResource emptyWorld "vbo" (some 3)).2
            [Call.ShareResource "ibo" (some 5), Call.ReleaseResource "ibo" false,
              Call.DelayedRelease 9, Call.dropHandle 3]).1 "vbo" (some 4)
        = (false, (calls (constructed 0 0 0)
            ((constructed 0 0 0).ShareResource emptyWorld "vbo" (some 3)).2
            [Call.ShareResource "ibo" (some 5), Call.ReleaseResource "ibo" false,
              Call.DelayedRelease 9, Call.dropHandle 3]).1) ∧
      (constructed 0 0 0).GetResource
        (calls (constructed 0 0 0)
            ((constructed 0 0 0).ShareResource emptyWorld "vbo" (some 3)).2
            [Call.ShareResource "ibo" (some 5), Call.ReleaseResource "ibo" false,
              Call.DelayedRelease 9, Call.dropHandle 3]).1 "vbo" = some 3) ∧
    ((constructed 0 0 0).ShareResource
          ((constructed 0 0 0).ReleaseDelayed
            ((constructed 0 0 0).ShareResource emptyWorld "vbo" (some 3)).2) "vbo" (some 4)
        = (false, (constructed 0 0 0).ReleaseDelayed
            ((constructed 0 0 0).ShareResource emptyWorld "vbo" (some 3)).2) ∧
      (constructed 0 0 0).GetResource
        ((constructed 0 0 0).ShareResource
          ((constructed 0 0 0).ReleaseDelayed
            ((constructed 0 0 0).ShareResource emptyWorld "vbo" (some 3)).2)
          "vbo" (some 4)).2 "vbo" = some 3) :=
  have h := ShareResource_twice_fails (constructed 0 0 0) emptyWorld "vbo" 3 4
    (by decide) (by decide)
  ⟨h.1,
    h.2.1 [Call.ShareResource "ibo" (some 5), Call.ReleaseResource "ibo" false,
      Call.DelayedRelease 9, Call.dropHandle 3] (by decide),
    h.2.2 ((constructed 0 0 0).ReleaseDelayed
      ((constructed 0 0 0).ShareResource emptyWorld "vbo" (some 3)).2) (by decide)⟩

/-- C4: round trip.  For a non-empty key K that is not bound, ShareResource
(K, R) succeeds; once the caller has let go of the handles it held, the
registry holds the only handle on R (reference count 1); ReleaseResource
(K, false) then leaves GetResource (K) null and the release routine of R has
been called exactly once more. -/
theorem ShareResource_then_ReleaseResource (this : Context) (w : World) (K : Key) (R : ResId)
    (hne : K ≠ "")
    (hK : (w.resourcesMaps this.mySharedResources).IsBound K = false) :
    (this.ShareResource w K (some R)).1 = true ∧
    (((this.ShareResource w K (some R)).2).dropHandles R (w.refCount R)).refCount R = 1 ∧
    this.GetResource
      (this.ReleaseResource
        (((this.ShareResource w K (some R)).2).dropHandles R (w.refCount R)) K false) K = none ∧
    (this.ReleaseResource
        (((this.ShareResource w K (some R)).2).dropHandles R (w.refCount R)) K false).releaseCount R
      = w.releaseCount R + 1 := by
  have hE : K.isEmpty = false := by
    cases h : K.isEmpty with
    | false => rfl
    | true => exact absurd ((String.isEmpty_iff K).1 h) hne
  have hw : this.ShareResource w K (some R) =
      (true, { w.copyHandle R with
          resourcesMaps := Function.update w.resourcesMaps this.mySharedResources
            (w.resourcesMaps this.mySharedResources ++ [(K, R)]) }) := by
    simp [ShareResource, hE, DataMap.Bind, hK]
  rw [hw]
  simp only []
  generalize hw1 : ({ w.copyHandle R with
          resourcesMaps := Function.update w.resourcesMaps this.mySharedResources
            (w.resourcesMaps this.mySharedResources ++ [(K, R)]) } : World) = w1
  have hc1 : w1.refCount R = w.refCount R + 1 := by
    rw [← hw1]; simp [World.copyHandle]
  have hm1 : w1.resourcesMaps this.mySharedResources
      = w.resourcesMaps this.mySharedResources ++ [(K, R)] := by
    rw [← hw1]; simp
  have hr1 : w1.released = w.released := by rw [← hw1]; rfl
  generalize hw2 : w1.dropHandles R (w.refCount R) = w2
  have hc2 : w2.refCount R = 1 := by
    rw [← hw2, dropHandles_refCount, hc1]; omega
  obtain ⟨f1, f2, -, -⟩ := dropHandles_fields w1 R (w.refCount R)
  rw [hw2] at f1 f2
  have hm2 : w2.resourcesMaps this.mySharedResources
      = w.resourcesMaps this.mySharedResources ++ [(K, R)] := by rw [f2, hm1]
  have hF : (w2.resourcesMaps this.mySharedResources).Find K = some R := by
    rw [hm2, DataMap.Find_append_of_not_bound _ _ _ hK]; simp [DataMap.Find]
  have hB := DataMap.IsBound_of_Find _ _ _ hF
  refine ⟨trivial, hc2, ?_, ?_⟩
  · rw [GetResource_eq_Find]
    simp [ReleaseResource, hB, hF, hc2, World.Release, World.dropHandle,
      DataMap.Find_eq_none_of_not_bound _ _ (DataMap.IsBound_UnBind_self _ _)]
  · simp [ReleaseResource, hB, hF, hc2, World.Release, World.dropHandle, World.releaseCount,
      f1, hr1, List.count_append]

theorem ShareResource_then_ReleaseResource_witness :
    ((constructed 0 0 0).ShareResource (textureWorld 1) "vbo" (some 3)).1 = true ∧
    ((((constructed 0 0 0).ShareResource (textureWorld 1) "vbo" (some 3)).2).dropHandles 3
      ((textureWorld 1).refCount 3)).refCount 3 = 1 ∧
    (constructed 0 0 0).GetResource
      ((constructed 0 0 0).ReleaseResource
        ((((constructed 0 0 0).ShareResource (textureWorld 1) "vbo" (some 3)).2).dropHandles 3
          ((textureWorld 1).refCount 3)) "vbo" false) "vbo" = none ∧
    ((constructed 0 0 0).ReleaseResource
        ((((constructed 0 0 0).ShareResource (textureWorld 1) "vbo" (some 3)).2).dropHandles 3
          ((textureWorld 1).refCount 3)) "vbo" false).releaseCount 3
      = (textureWorld 1).releaseCount 3 + 1 :=
  ShareResource_then_ReleaseResource (constructed 0 0 0) (textureWorld 1) "vbo" 3
    (by decide) (by decide)

end Context

namespace Context

theorem count_snd_two {K V : Type} [DecidableEq V] (l : List (K × V)) (a b : K × V) (v : V)
    (ha : a ∈ l) (hb : b ∈ l) (hab : a ≠ b) (hav : a.2 = v) (hbv : b.2 = v) :
    2 ≤ (l.map Prod.snd).count v := by
  induction l with
  | nil => cases ha
  | cons x xs ih =>
    rw [List.map_cons, List.count_cons]
    rcases List.mem_cons.1 ha with rfl | ha'
    · rcases List.mem_cons.1 hb with rfl | hb'
      · exact absurd rfl hab
      · have : 0 < (xs.map Prod.snd).count v :=
          List.count_pos_iff.2 (List.mem_map.2 ⟨b, hb', hbv⟩)
        have hx : (a.2 == v) = true := by simp [hav]
        rw [hx]; simp only [if_true]; omega
    · rcases List.mem_cons.1 hb with rfl | hb'
      · have : 0 < (xs.map Prod.snd).count v :=
          List.count_pos_iff.2 (List.mem_map.2 ⟨a, ha', hav⟩)
        have hx : (b.2 == v) = true := by simp [hbv]
        rw [hx]; simp only [if_true]; omega
      · have := ih ha' hb'
        omega

theorem OnlyHandle_of_counted (this : Context) (w : World) (K : Key) (r : ResId)
    (hK : this.GetResource w K = some r) (hcnt : w.refCount r = 1)
    (hH : HandlesCounted this w) :
    OnlyHandle this K r (w.releaseCount r) w ∧ r ∉ w.queues this.myReleaseQueue := by
  rw [GetResource_eq_Find] at hK
  have hmem := DataMap.mem_of_Find _ _ _ hK
  have hc := hH r
  rw [hcnt] at hc
  have hpos : 0 < ((w.resourcesMaps this.mySharedResources).map Prod.snd).count r :=
    List.count_pos_iff.2 (List.mem_map.2 ⟨(K, r), hmem, rfl⟩)
  refine ⟨⟨hK, hcnt, ?_, rfl⟩, ?_⟩
  · intro e he her
    by_contra hne
    have h2 := count_snd_two _ e (K, r) r he hmem (fun h => hne (by rw [h])) her rfl
    omega
  · intro hq
    have : 0 < (w.queues this.myReleaseQueue).count r := List.count_pos_iff.2 hq
    omega

theorem releaseQueue_fields (w : World) (q : List ResId) :
    (releaseQueue w q).resourcesMaps = w.resourcesMaps ∧
    (releaseQueue w q).delayMaps = w.delayMaps ∧
    (releaseQueue w q).queues = w.queues ∧
    (releaseQueue w q).released = w.released ++ q := by
  induction q generalizing w with
  | nil => simp [releaseQueue]
  | cons r q ih =>
    obtain ⟨h1, h2, h3, h4⟩ := ih ((w.Release r).dropHandle r)
    simp only [releaseQueue]
    refine ⟨h1, h2, h3, ?_⟩
    rw [h4]; simp [World.Release, World.dropHandle]

theorem releaseQueue_refCount (w : World) (q : List ResId) (r : ResId) (h : r ∉ q) :
    (releaseQueue w q).refCount r = w.refCount r := by
  induction q generalizing w with
  | nil => rfl
  | cons x q ih =>
    simp only [List.mem_cons, not_or] at h
    simp only [releaseQueue]
    rw [ih _ h.2]
    simp [World.Release, World.dropHandle, Function.update_noteq h.1]

theorem delayedStep_fields (this : Context) (s : DelayedLoop) (e : Key × Int) :
    (delayedStep this s e).world.delayMaps = s.world.delayMaps ∧
    (delayedStep this s e).world.queues = s.world.queues ∧
    (delayedStep this s e).visited = s.visited ++ [(e.1, e.2 + 1)] ∧
    (delayedStep this s e).aDeadList
      = s.aDeadList ++ (if e.2 + 1 ≤ 2 then [] else [e.1]) := by
  unfold delayedStep
  by_cases h : e.2 + 1 ≤ 2
  · simp [h]
  · simp only [h, if_false]
    split
    · simp
    · split
      · simp
      · split
        · simp
        · simp [World.Release, World.dropHandle]

theorem foldl_delayedStep_fields (this : Context) (l : DataMap Key Int) (s : DelayedLoop) :
    (l.foldl (delayedStep this) s).world.delayMaps = s.world.delayMaps ∧
    (l.foldl (delayedStep this) s).world.queues = s.world.queues ∧
    (l.foldl (delayedStep this) s).visited = s.visited ++ l.map (fun e => (e.1, e.2 + 1)) ∧
    (l.foldl (delayedStep this) s).aDeadList
      = s.aDeadList ++ (l.filter (fun e => !decide (e.2 + 1 ≤ 2))).map Prod.fst := by
  induction l generalizing s with
  | nil => simp
  | cons e l ih =>
    obtain ⟨h1, h2, h3, h4⟩ := ih (delayedStep this s e)
    obtain ⟨g1, g2, g3, g4⟩ := delayedStep_fields this s e
    simp only [List.foldl_cons]
    refine ⟨h1.trans g1, h2.trans g2, ?_, ?_⟩
    · rw [h3, g3]; simp
    · rw [h4, g4]
      by_cases h : e.2 + 1 ≤ 2 <;> simp [h, List.filter_cons]

theorem delayedStep_OnlyHandle (this : Context) (K : Key) (r : ResId) (n : Nat)
    (s : DelayedLoop) (e : Key × Int) (he : e.1 ≠ K ∨ e.2 + 1 ≤ 2)
    (hs : OnlyHandle this K r n s.world) :
    OnlyHandle this K r n (delayedStep this s e).world := by
  unfold delayedStep
  by_cases h : e.2 + 1 ≤ 2
  · simpa [h] using hs
  · have hk : e.1 ≠ K := he.resolve_right h
    simp only [h, if_false]
    split
    · exact hs
    · split
      · exact hs
      · rename_i aRes hF
        split
        · exact hs
        · obtain ⟨i1, i2, i3, i4⟩ := hs
          have hne : aRes ≠ r := by
            intro hr
            exact hk (i3 _ (DataMap.mem_of_Find _ _ _ hF) hr)
          refine ⟨?_, ?_, ?_, ?_⟩
          · simpa [World.Release, World.dropHandle, DataMap.Find_UnBind_ne _ _ _ hk] using i1
          · simpa [World.Release, World.dropHandle, Function.update_noteq hne.symm] using i2
          · intro e' he' her
            simp only [World.Release, World.dropHandle, Function.update_same] at he'
            exact i3 e' (DataMap.mem_UnBind _ _ _ he').1 her
          · have hz : List.count r [aRes] = 0 := by
              simp [List.count_cons, hne]
            simpa [World.Release, World.dropHandle, World.releaseCount, List.count_append,
              hz] using i4

theorem foldl_delayedStep_OnlyHandle (this : Context) (K : Key) (r : ResId) (n : Nat)
    (l : DataMap Key Int) (s : DelayedLoop) (hl : ∀ e ∈ l, e.1 ≠ K ∨ e.2 + 1 ≤ 2)
    (hs : OnlyHandle this K r n s.world) :
    OnlyHandle this K r n (l.foldl (delayedStep this) s).world := by
  induction l generalizing s with
  | nil => exact hs
  | cons e l ih =>
    simp only [List.foldl_cons]
    exact ih _ (fun e' he' => hl e' (List.mem_cons_of_mem _ he'))
      (delayedStep_OnlyHandle this K r n s e (hl e (List.mem_cons_self _ _)) hs)

theorem delayedStep_release (this : Context) (K : Key) (r : ResId) (n : Nat)
    (s : DelayedLoop) (c : Int) (hc : 2 < c + 1)
    (hs : OnlyHandle this K r n s.world) :
    Gone this K r (n + 1) (delayedStep this s (K, c)).world := by
  obtain ⟨i1, i2, i3, i4⟩ := hs
  have hb := DataMap.IsBound_of_Find _ _ _ i1
  have h : ¬ (c + 1 ≤ 2) := by omega
  unfold delayedStep
  simp only [h, if_false, hb, Bool.not_true, i1, i2]
  simp only [gt_iff_lt, lt_self_iff_false, if_false, Bool.false_eq_true]
  refine ⟨?_, ?_, ?_⟩
  · simp [World.Release, World.dropHandle,
      DataMap.Find_eq_none_of_not_bound _ _ (DataMap.IsBound_UnBind_self _ _)]
  · intro e' he' her
    simp only [World.Release, World.dropHandle, Function.update_same] at he'
    have := DataMap.mem_UnBind _ _ _ he'
    exact this.2 (i3 e' this.1 her)
  · simp [World.Release, World.dropHandle, World.releaseCount, List.count_append] at i4 ⊢
    exact i4

end Context

namespace Context

theorem foldl_UnBind {V : Type} (ks : List Key) (m : DataMap Key V) :
    ks.foldl DataMap.UnBind m = m.filter (fun e => !decide (e.1 ∈ ks)) := by
  induction ks generalizing m with
  | nil => simp
  | cons k ks ih =>
    simp only [List.foldl_cons]
    rw [ih, DataMap.UnBind, List.filter_filter]
    congr 1
    funext e
    by_cases h1 : e.1 = k <;> by_cases h2 : e.1 ∈ ks <;> simp [h1, h2]

theorem drained_OnlyHandle (this : Context) (K : Key) (r : ResId) (n : Nat) (w : World)
    (hs : OnlyHandle this K r n w) (hq : r ∉ w.queues this.myReleaseQueue) :
    OnlyHandle this K r n
      { releaseQueue w (w.queues this.myReleaseQueue) with
          queues := Function.update w.queues this.myReleaseQueue [] } := by
  obtain ⟨i1, i2, i3, i4⟩ := hs
  obtain ⟨f1, -, -, f4⟩ := releaseQueue_fields w (w.queues this.myReleaseQueue)
  refine ⟨?_, ?_, ?_, ?_⟩
  · show ((releaseQueue w _).resourcesMaps this.mySharedResources).Find K = some r
    rw [f1]; exact i1
  · show (releaseQueue w _).refCount r = 1
    rw [releaseQueue_refCount _ _ _ hq]; exact i2
  · show ∀ e ∈ (releaseQueue w _).resourcesMaps this.mySharedResources, e.2 = r → e.1 = K
    rw [f1]; exact i3
  · show List.count r (releaseQueue w _).released = n
    rw [f4, List.count_append, List.count_eq_zero_of_not_mem hq]
    exact i4

theorem ReleaseDelayed_keeps (this : Context) (K : Key) (r : ResId) (n : Nat) (w : World)
    (hs : OnlyHandle this K r n w) (hq : r ∉ w.queues this.myReleaseQueue)
    (hl : ∀ e ∈ w.delayMaps this.myDelayed, e.1 ≠ K ∨ e.2 + 1 ≤ 2) :
    OnlyHandle this K r n (this.ReleaseDelayed w) ∧
    (this.ReleaseDelayed w).queues this.myReleaseQueue = [] ∧
    (this.ReleaseDelayed w).delayMaps this.myDelayed = afterSweep (w.delayMaps this.myDelayed) := by
  have h1 := drained_OnlyHandle this K r n w hs hq
  obtain ⟨-, f2, -, -⟩ := releaseQueue_fields w (w.queues this.myReleaseQueue)
  generalize hw1 : ({ releaseQueue w (w.queues this.myReleaseQueue) with
          queues := Function.update w.queues this.myReleaseQueue [] } : World) = w1 at h1
  have hd1 : w1.delayMaps = w.delayMaps := by rw [← hw1]; exact f2
  have hq1 : w1.queues this.myReleaseQueue = [] := by rw [← hw1]; simp
  have hRD : this.ReleaseDelayed w =
      { ((w1.delayMaps this.myDelayed).foldl (delayedStep this)
            { world := w1, visited := [], aDeadList := [] }).world with
        delayMaps := Function.update
          ((w1.delayMaps this.myDelayed).foldl (delayedStep this)
            { world := w1, visited := [], aDeadList := [] }).world.delayMaps this.myDelayed
          (((w1.delayMaps this.myDelayed).foldl (delayedStep this)
            { world := w1, visited := [], aDeadList := [] }).aDeadList.foldl DataMap.UnBind
            ((w1.delayMaps this.myDelayed).foldl (delayedStep this)
              { world := w1, visited := [], aDeadList := [] }).visited) } := by
    rw [← hw1]; rfl
  rw [hd1] at hRD
  have h2 := foldl_delayedStep_OnlyHandle this K r n (w.delayMaps this.myDelayed)
    { world := w1, visited := [], aDeadList := [] } hl h1
  obtain ⟨g1, g2, g3, g4⟩ := foldl_delayedStep_fields this (w.delayMaps this.myDelayed)
    { world := w1, visited := [], aDeadList := [] }
  rw [hRD]
  refine ⟨h2, ?_, ?_⟩
  · show ((w.delayMaps this.myDelayed).foldl (delayedStep this) _).world.queues
      this.myReleaseQueue = []
    rw [g2]; exact hq1
  · simp only [Function.update_same]
    rw [foldl_UnBind, g3, g4]
    simp [afterSweep]

theorem ReleaseDelayed_releases (this : Context) (K : Key) (r : ResId) (n : Nat) (w : World)
    (P : DataMap Key Int) (c : Int)
    (hs : OnlyHandle this K r n w) (hq : r ∉ w.queues this.myReleaseQueue)
    (hd : w.delayMaps this.myDelayed = P ++ [(K, c)])
    (hl : ∀ e ∈ P, e.1 ≠ K ∨ e.2 + 1 ≤ 2) (hc : 2 < c + 1) :
    Gone this K r (n + 1) (this.ReleaseDelayed w) := by
  have h1 := drained_OnlyHandle this K r n w hs hq
  obtain ⟨-, f2, -, -⟩ := releaseQueue_fields w (w.queues this.myReleaseQueue)
  generalize hw1 : ({ releaseQueue w (w.queues this.myReleaseQueue) with
          queues := Function.update w.queues this.myReleaseQueue [] } : World) = w1 at h1
  have hd1 : w1.delayMaps = w.delayMaps := by rw [← hw1]; exact f2
  have hRD : this.ReleaseDelayed w =
      { ((w1.delayMaps this.myDelayed).foldl (delayedStep this)
            { world := w1, visited := [], aDeadList := [] }).world with
        delayMaps := Function.update
          ((w1.delayMaps this.myDelayed).foldl (delayedStep this)
            { world := w1, visited := [], aDeadList := [] }).world.delayMaps this.myDelayed
          (((w1.delayMaps this.myDelayed).foldl (delayedStep this)
            { world := w1, visited := [], aDeadList := [] }).aDeadList.foldl DataMap.UnBind
            ((w1.delayMaps this.myDelayed).foldl (delayedStep this)
              { world := w1, visited := [], aDeadList := [] }).visited) } := by
    rw [← hw1]; rfl
  rw [hd1, hd, List.foldl_append] at hRD
  have h2 := foldl_delayedStep_OnlyHandle this K r n P
    { world := w1, visited := [], aDeadList := [] } hl h1
  have h3 := delayedStep_release this K r n _ c hc h2
  rw [hRD]
  exact h3

theorem afterSweep_fresh (D : DataMap Key Int) (K : Key) (hD : D.IsBound K = false) :
    afterSweep (D ++ [(K, 1)]) = afterSweep D ++ [(K, 2)] ∧
    ∀ e ∈ afterSweep D, e.1 ≠ K := by
  have hk : ∀ e ∈ D, e.1 ≠ K := by
    intro e he h
    have : D.IsBound K = true := by
      simp only [DataMap.IsBound, List.any_eq_true, decide_eq_true_eq]
      exact ⟨e, he, h⟩
    rw [hD] at this; cases this
  constructor
  · simp only [afterSweep, List.map_append, List.filter_append, List.map_cons, List.map_nil]
    have h1 : List.filter (fun e : Key × Int => !decide (e.2 + 1 ≤ 2)) [(K, (1 : Int))] = [] := by
      simp [List.filter_cons]
    rw [h1]
    simp only [List.map_nil, List.append_nil]
    congr 1
    have h2 : K ∉ List.map Prod.fst (List.filter (fun e : Key × Int => !decide (e.2 + 1 ≤ 2)) D) := by
      intro h
      obtain ⟨e, he, hek⟩ := List.mem_map.1 h
      exact hk e (List.mem_of_mem_filter he) hek
    simp [List.filter_cons, h2]
  · intro e he
    simp only [afterSweep, List.mem_filter, List.mem_map] at he
    obtain ⟨⟨e0, he0, rfl⟩, -⟩ := he
    exact hk e0 he0

end Context

namespace Context

/-- C1, amended: for a key K bound to a resource r whose only handle is the one
of the registry (reference count 1, every handle counted) and that has no node
in the deferred queue yet, after ReleaseResource (K, true) one call of
ReleaseDelayed leaves K bound to r, r not released and its count at 1; the
second call releases r, exactly once, and unbinds K. -/
theorem deferred_release_on_second_ReleaseDelayed (this : Context) (w : World) (K : Key)
    (r : ResId)
    (hK : this.GetResource w K = some r) (hcnt : w.refCount r = 1)
    (hH : HandlesCounted this w)
    (hD : (w.delayMaps this.myDelayed).IsBound K = false) :
    this.GetResource (this.ReleaseDelayed (this.ReleaseResource w K true)) K = some r ∧
    (this.ReleaseDelayed (this.ReleaseResource w K true)).releaseCount r = w.releaseCount r ∧
    (this.ReleaseDelayed (this.ReleaseResource w K true)).refCount r = 1 ∧
    this.GetResource
      (this.ReleaseDelayed (this.ReleaseDelayed (this.ReleaseResource w K true))) K = none ∧
    (this.ReleaseDelayed (this.ReleaseDelayed (this.ReleaseResource w K true))).releaseCount r
      = w.releaseCount r + 1 := by
  obtain ⟨h0, hq⟩ := OnlyHandle_of_counted this w K r hK hcnt hH
  have hF := h0.1
  have hA : this.ReleaseResource w K true =
      { w with delayMaps := Function.update w.delayMaps this.myDelayed
                  (w.delayMaps this.myDelayed ++ [(K, 1)]) } := by
    unfold ReleaseResource
    simp [DataMap.IsBound_of_Find _ _ _ hF, hF, hcnt, DataMap.Bind, hD]
  generalize hwA : this.ReleaseResource w K true = wA at hA
  have hdA : wA.delayMaps this.myDelayed = w.delayMaps this.myDelayed ++ [(K, 1)] := by
    rw [hA]; simp
  have hsA : OnlyHandle this K r (w.releaseCount r) wA := by rw [hA]; exact h0
  have hqA : r ∉ wA.queues this.myReleaseQueue := by rw [hA]; exact hq
  obtain ⟨e1, e2⟩ := afterSweep_fresh (w.delayMaps this.myDelayed) K hD
  have hk : ∀ e ∈ w.delayMaps this.myDelayed, e.1 ≠ K := by
    intro e he h
    have : (w.delayMaps this.myDelayed).IsBound K = true := by
      simp only [DataMap.IsBound, List.any_eq_true, decide_eq_true_eq]
      exact ⟨e, he, h⟩
    rw [hD] at this; cases this
  have hlA : ∀ e ∈ wA.delayMaps this.myDelayed, e.1 ≠ K ∨ e.2 + 1 ≤ 2 := by
    rw [hdA]
    intro e he
    rcases List.mem_append.1 he with h | h
    · exact Or.inl (hk e h)
    · simp only [List.mem_singleton] at h
      rw [h]; exact Or.inr (show ((1 : Int) + 1 ≤ 2) by decide)
  obtain ⟨b1, b2, b3⟩ := ReleaseDelayed_keeps this K r _ wA hsA hqA hlA
  rw [hdA, e1] at b3
  have hqB : r ∉ (this.ReleaseDelayed wA).queues this.myReleaseQueue := by rw [b2]; simp
  have hG := ReleaseDelayed_releases this K r _ (this.ReleaseDelayed wA) _ 2 b1 hqB b3
    (fun e he => Or.inl (e2 e he)) (by decide)
  refine ⟨?_, b1.2.2.2, b1.2.1, ?_, hG.2.2⟩
  · rw [GetResource_eq_Find]; exact b1.1
  · rw [GetResource_eq_Find]; exact hG.1

theorem deferred_release_on_second_ReleaseDelayed_witness :
    (constructed 0 0 0).GetResource
      ((constructed 0 0 0).ReleaseDelayed ((constructed 0 0 0).ReleaseResource (textureWorld 1) "tex" true))
      "tex" = some 7 ∧
    ((constructed 0 0 0).ReleaseDelayed ((constructed 0 0 0).ReleaseResource (textureWorld 1) "tex" true)).releaseCount 7
      = (textureWorld 1).releaseCount 7 ∧
    ((constructed 0 0 0).ReleaseDelayed ((constructed 0 0 0).ReleaseResource (textureWorld 1) "tex" true)).refCount 7
      = 1 ∧
    (constructed 0 0 0).GetResource
      ((constructed 0 0 0).ReleaseDelayed
        ((constructed 0 0 0).ReleaseDelayed ((constructed 0 0 0).ReleaseResource (textureWorld 1) "tex" true)))
      "tex" = none ∧
    ((constructed 0 0 0).ReleaseDelayed
        ((constructed 0 0 0).ReleaseDelayed ((constructed 0 0 0).ReleaseResource (textureWorld 1) "tex" true))).releaseCount 7
      = (textureWorld 1).releaseCount 7 + 1 :=
  deferred_release_on_second_ReleaseDelayed (constructed 0 0 0) (textureWorld 1) "tex" 7
    (by decide) (by decide)
    (by
      intro r
      by_cases h : r = 7
      · subst h; decide
      · simp [textureWorld, constructed, h, List.count_cons, Ne.symm h])
    (by decide)

/-- C1, counterexample: "tex" is bound to resource 7 of reference count 1, yet
after ReleaseResource ("tex", true) and exactly two calls of ReleaseDelayed it
is not so that "tex" is still bound to 7 with 7 not released. -/
theorem deferred_release_not_after_third :
    (constructed 0 0 0).GetResource (textureWorld 1) "tex" = some 7 ∧
    (textureWorld 1).refCount 7 = 1 ∧
    ¬ ((constructed 0 0 0).GetResource
        ((constructed 0 0 0).ReleaseDelayed
          ((constructed 0 0 0).ReleaseDelayed
            ((constructed 0 0 0).ReleaseResource (textureWorld 1) "tex" true))) "tex" = some 7 ∧
       ((constructed 0 0 0).ReleaseDelayed
          ((constructed 0 0 0).ReleaseDelayed
            ((constructed 0 0 0).ReleaseResource (textureWorld 1) "tex" true))).releaseCount 7 = 0) := by
  decide

end Context

namespace Context

theorem ShareResource_fresh (this : Context) (w : World) (K : Key) (R : ResId)
    (hne : K ≠ "") (hK : (w.resourcesMaps this.mySharedResources).IsBound K = false) :
    this.ShareResource w K (some R) =
      (true, { w.copyHandle R with
          resourcesMaps := Function.update w.resourcesMaps this.mySharedResources
            (w.resourcesMaps this.mySharedResources ++ [(K, R)]) }) := by
  have hE : K.isEmpty = false := by
    cases h : K.isEmpty with
    | false => rfl
    | true => exact absurd ((String.isEmpty_iff K).1 h) hne
  simp [ShareResource, hE, DataMap.Bind, hK]

theorem GetResource_after_ShareResource (this that : Context) (w : World) (K : Key) (R : ResId)
    (hne : K ≠ "") (hK : (w.resourcesMaps this.mySharedResources).IsBound K = false)
    (hsame : that.mySharedResources = this.mySharedResources) :
    (this.ShareResource w K (some R)).1 = true ∧
    that.GetResource (this.ShareResource w K (some R)).2 K = some R := by
  rw [ShareResource_fresh this w K R hne hK, GetResource_eq_Find, hsame]
  refine ⟨rfl, ?_⟩
  simp [DataMap.Find_append_of_not_bound _ _ _ hK, DataMap.Find]

theorem ShareResource_true (this : Context) (w : World) (K : Key) (R : ResId)
    (h : (this.ShareResource w K (some R)).1 = true) :
    K ≠ "" ∧ (w.resourcesMaps this.mySharedResources).IsBound K = false := by
  constructor
  · intro hK
    subst hK
    have hE : "".isEmpty = true := by decide
    simp [ShareResource, hE] at h
  · cases hb : (w.resourcesMaps this.mySharedResources).IsBound K with
    | false => rfl
    | true =>
      unfold ShareResource at h
      by_cases hE : K.isEmpty = true
      · simp [hE] at h
      · simp [hE, DataMap.Bind, hb] at h

/-- C10: after A.Share (B), B not null, a successful ShareResource (K, R) on A
makes GetResource (K) on B give R, a successful ShareResource (K, R) on B makes
GetResource (K) on A give R, the call does succeed on either for a non-empty
key that is not bound, and both contexts hold the same registry, the same
deferred-release queue and the same immediate-release queue. -/
theorem Share_joins_group (A B : Context) (w0 w : World) (K : Key) (R : ResId) :
    (((A.Share w0 (some B)).1.ShareResource w K (some R)).1 = true →
      B.GetResource ((A.Share w0 (some B)).1.ShareResource w K (some R)).2 K = some R) ∧
    ((B.ShareResource w K (some R)).1 = true →
      (A.Share w0 (some B)).1.GetResource (B.ShareResource w K (some R)).2 K = some R) ∧
    (K ≠ "" → (w.resourcesMaps B.mySharedResources).IsBound K = false →
      ((A.Share w0 (some B)).1.ShareResource w K (some R)).1 = true ∧
      (B.ShareResource w K (some R)).1 = true) ∧
    (A.Share w0 (some B)).1.mySharedResources = B.mySharedResources ∧
    (A.Share w0 (some B)).1.myDelayed = B.myDelayed ∧
    (A.Share w0 (some B)).1.myReleaseQueue = B.myReleaseQueue ∧
    (∀ v : World, v.delayMaps (A.Share w0 (some B)).1.myDelayed = v.delayMaps B.myDelayed) ∧
    (∀ v : World, v.queues (A.Share w0 (some B)).1.myReleaseQueue
      = v.queues B.myReleaseQueue) := by
  have hs : (A.Share w0 (some B)).1.mySharedResources = B.mySharedResources := rfl
  refine ⟨?_, ?_, ?_, rfl, rfl, rfl, fun _ => rfl, fun _ => rfl⟩
  · intro h
    obtain ⟨hne, hK⟩ := ShareResource_true _ w K R h
    exact (GetResource_after_ShareResource (A.Share w0 (some B)).1 B w K R hne hK hs.symm).2
  · intro h
    obtain ⟨hne, hK⟩ := ShareResource_true _ w K R h
    exact (GetResource_after_ShareResource B (A.Share w0 (some B)).1 w K R hne hK hs).2
  · intro hne hK
    exact ⟨(GetResource_after_ShareResource (A.Share w0 (some B)).1 B w K R hne
        (by rw [hs]; exact hK) hs.symm).1,
      (GetResource_after_ShareResource B B w K R hne hK rfl).1⟩

end Context

/-! ## Lemmas on the extension string -/

theorem strncmp_eq_zero (a b : List Char) (n : Nat) :
    strncmp a b n = 0 ↔ a.take n = b.take n := by
  unfold strncmp
  by_cases h : a.take n = b.take n
  · simp [h]
  · simp only [h, if_false]
    constructor
    · intro h'
      split at h' <;> simp at h'
    · intro h'; exact absurd h' (fun h => by cases h)

theorem CheckExtensionLoop_nil (N : List Char) (fuel : Nat) :
    CheckExtensionLoop N fuel [] = false := by
  cases fuel <;> simp [CheckExtensionLoop]

theorem token_of_text (S : List Char) :
    (S.dropWhile (fun x => x != ' ') = [] ∧ S.takeWhile (fun x => x != ' ') = S ∧
      S.splitOn ' ' = [S]) ∨
    (∃ rest, S = S.takeWhile (fun x => x != ' ') ++ ' ' :: rest ∧
      S.splitOn ' ' = S.takeWhile (fun x => x != ' ') :: rest.splitOn ' ') := by
  have hS := List.takeWhile_append_dropWhile (fun x => x != ' ') S
  have hno : ∀ x ∈ S.takeWhile (fun x => x != ' '), ¬ ((x == ' ') = true) := by
    intro x hx
    have := List.mem_takeWhile_imp hx
    simpa using this
  cases hd : S.dropWhile (fun x => x != ' ') with
  | nil =>
    left
    rw [hd, List.append_nil] at hS
    refine ⟨rfl, hS, ?_⟩
    rw [hS] at hno
    exact List.splitOnP_eq_single _ _ hno
  | cons c rest =>
    right
    have hc : c = ' ' := by
      have := List.head_dropWhile_not (fun x => x != ' ') S (by rw [hd]; simp)
      simp only [hd, List.head_cons] at this
      simpa using this
    subst hc
    refine ⟨rest, ?_, ?_⟩
    · rw [hd] at hS; exact hS.symm
    · have h1 := List.splitOnP_first (fun x => x == ' ') _ hno ' ' (by simp) rest
      rw [hd] at hS
      have h2 : S.splitOn ' ' = (S.takeWhile (fun x => x != ' ') ++ ' ' :: rest).splitOn ' ' := by
        rw [hS]
      rw [h2]
      exact h1

theorem CheckExtensionLoop_iff (N : List Char) (hN : N ≠ []) :
    ∀ (fuel : Nat) (S : List Char), S.length ≤ fuel →
      (CheckExtensionLoop N fuel S = true ↔ N ∈ extensionTokens S) := by
  intro fuel
  induction fuel with
  | zero =>
    intro S hS
    have : S = [] := List.length_eq_zero.1 (Nat.le_zero.1 hS)
    subst this
    simp [CheckExtensionLoop, extensionTokens, List.splitOn, List.splitOnP_nil, hN]
  | succ fuel ih =>
    intro S hS
    cases S with
    | nil => simp [CheckExtensionLoop, extensionTokens, List.splitOn, List.splitOnP_nil, hN]
    | cons a S' =>
      generalize hSS : a :: S' = S at hS
      have hne : S.isEmpty = false := by rw [← hSS]; rfl
      unfold CheckExtensionLoop
      simp only [hne, Bool.false_eq_true, if_false, strcspn, strncmp_eq_zero, List.take_length]
      have htt : (S.takeWhile (fun x => x != ' ') = S ∧ S.splitOn ' ' = [S]) ∨
          (∃ rest, S = S.takeWhile (fun x => x != ' ') ++ ' ' :: rest ∧
            S.splitOn ' ' = S.takeWhile (fun x => x != ' ') :: rest.splitOn ' ') := by
        rcases token_of_text S with ⟨-, ht, hs⟩ | h
        · exact Or.inl ⟨ht, hs⟩
        · exact Or.inr h
      revert htt
      generalize S.takeWhile (fun x => x != ' ') = tok
      have hcond : ∀ rest, S = tok ++ rest →
          ((tok.length = N.length ∧ S.take N.length = N) ↔ tok = N) := by
        intro rest hr
        constructor
        · rintro ⟨h1, h2⟩
          rw [← h2, ← h1, hr]
          simp
        · intro h
          refine ⟨by rw [h], ?_⟩
          rw [hr, h]
          simp
      intro htt
      rcases htt with ⟨ht, hs⟩ | ⟨rest, hr, hs⟩
      · have hc := hcond [] (by rw [List.append_nil, ht])
        rw [ht] at hc
        unfold extensionTokens
        rw [hs, ht]
        by_cases h : S = N
        · simp [hc.2 h, h]
        · have h' : ¬ (S.length = N.length ∧ S.take N.length = N) := fun x => h (hc.1 x)
          simp only [h', if_false]
          rw [List.drop_of_length_le (by omega), CheckExtensionLoop_nil]
          simp [Ne.symm h]
      · have hc := hcond _ hr
        unfold extensionTokens
        rw [hs]
        by_cases h : tok = N
        · simp [hc.2 h, h]
        · have h' : ¬ (tok.length = N.length ∧ S.take N.length = N) := fun x => h (hc.1 x)
          simp only [h', if_false]
          have hdrop : S.drop (tok.length + 1) = rest := by
            rw [hr, ← List.drop_drop]
            simp
          rw [hdrop]
          have hlen : rest.length ≤ fuel := by
            have := congrArg List.length hr
            simp only [List.length_append, List.length_cons] at this
            omega
          rw [ih rest hlen]
          unfold extensionTokens
          simp [Ne.symm h]

theorem CheckExtension_iff (S N : List Char) (hN : N ≠ []) :
    CheckExtension (some S) N = true ↔ N ∈ extensionTokens S :=
  CheckExtensionLoop_iff N hN S.length S (Nat.le_refl _)

/-- C5: for every extension string S and every non-empty name N, the static
CheckExtension (S, N) answers true exactly when N is one of the space-delimited
tokens of S; the name "GL_EXT_foo" is not found in "GL_EXT_foobar". -/
theorem CheckExtension_exact_token (S N : List Char) (hN : N ≠ []) :
    (CheckExtension (some S) N = true ↔ N ∈ extensionTokens S) ∧
    CheckExtension (some "GL_EXT_foobar".toList) "GL_EXT_foo".toList = false :=
  ⟨CheckExtension_iff S N hN, by decide⟩

theorem CheckExtension_exact_token_witness :
    ("GL_EXT_bgra".toList ≠ []) ∧
    ((CheckExtension (some "GL_ARB_a GL_EXT_bgra".toList) "GL_EXT_bgra".toList = true ↔
        "GL_EXT_bgra".toList ∈ extensionTokens "GL_ARB_a GL_EXT_bgra".toList) ∧
      CheckExtension (some "GL_EXT_foobar".toList) "GL_EXT_foo".toList = false) :=
  ⟨by decide, CheckExtension_exact_token _ _ (by decide)⟩

/-! ## Lemmas on the version string -/

theorem digitRun_append (d rest : List Char) (hd : allDigits d = true)
    (hrest : ∀ c, rest.head? = some c → ¬ ('0' ≤ c ∧ c ≤ '9')) :
    digitRun (d ++ rest) = d.length := by
  induction d with
  | nil =>
    cases rest with
    | nil => rfl
    | cons c rest =>
      have := hrest c rfl
      simp [digitRun, List.takeWhile_cons, this]
  | cons x d ih =>
    simp only [allDigits, List.all_cons, Bool.and_eq_true, decide_eq_true_eq] at hd
    have ih' := ih (by simpa [allDigits] using hd.2)
    have hx : decide ('0' ≤ x ∧ x ≤ '9') = true := decide_eq_true hd.1
    simp only [digitRun] at ih' ⊢
    rw [List.cons_append, List.takeWhile_cons, hx]
    simp only [if_true, List.length_cons, ih']

theorem atoi_of_le (s : List Char) (h : decimal s ≤ 2147483647) :
    atoi s = (decimal s : Int) := by
  unfold atoi
  change Int.bmod (decimal s : Nat) (2 ^ 32) = _
  unfold Int.bmod
  have h1 : ((decimal s : Nat) : Int) % ((2 ^ 32 : Nat) : Int) = (decimal s : Int) :=
    Int.emod_eq_of_lt (by omega) (by push_cast; omega)
  rw [h1]
  simp only [Nat.reducePow, Nat.reduceAdd, Nat.reduceDiv]
  split
  · rfl
  · omega

theorem digit_ne_nul (c : Char) (h : '0' ≤ c ∧ c ≤ '9') : c ≠ Char.ofNat 0 := by
  intro hc
  subst hc
  exact absurd h.1 (by decide)

/-- C7, amended: when the integer query is not usable and the version string is
M "." m suffix, with M and m non-empty runs of fewer than 32 digits, the
suffix empty or starting with a non-digit, M > 0 and both values at most
INT_MAX = 2147483647, readGlVersion yields exactly (M, m). -/
theorem readGlVersion_major_minor (gl : GlDriver) (M m suffix : List Char)
    (hq : intQueryUsable gl = false)
    (hs : gl.versionString = some (M ++ '.' :: (m ++ suffix)))
    (hM : M ≠ []) (hMd : allDigits M = true) (hMl : M.length < 32)
    (hm : m ≠ []) (hmd : allDigits m = true) (hml : m.length < 32)
    (hsuf : ∀ c, suffix.head? = some c → ¬ ('0' ≤ c ∧ c ≤ '9'))
    (hpos : 0 < decimal M) (hMi : decimal M ≤ 2147483647) (hmi : decimal m ≤ 2147483647) :
    readGlVersion gl = ((decimal M : Int), (decimal m : Int)) := by
  have hr1 : digitRun (M ++ '.' :: (m ++ suffix)) = M.length :=
    digitRun_append M _ hMd (by
      intro c hc
      simp only [List.head?_cons, Option.some.injEq] at hc
      subst hc
      decide)
  have hr2 : digitRun (m ++ suffix) = m.length := digitRun_append m _ hmd hsuf
  have hlM : 0 < M.length := List.length_pos.2 hM
  have hlm : 0 < m.length := List.length_pos.2 hm
  have hhead : (M ++ '.' :: (m ++ suffix)).headD (Char.ofNat 0) ≠ Char.ofNat 0 := by
    cases M with
    | nil => exact absurd rfl hM
    | cons x M' =>
      simp only [allDigits, List.all_cons, Bool.and_eq_true, decide_eq_true_eq] at hMd
      simpa using digit_ne_nul x hMd.1
  have hdrop : (M ++ '.' :: (m ++ suffix)).drop (M.length + 1) = m ++ suffix := by
    rw [← List.drop_drop]; simp
  unfold readGlVersion
  simp only [hq, Bool.false_eq_true, if_false, hs, hhead, hr1, hdrop, hr2]
  have c1 : ¬ (M.length = 0 ∨ M.length ≥ 32) := by omega
  have c2 : ¬ (m.length = 0 ∨ m.length ≥ 32) := by omega
  simp only [c1, c2, if_false, List.take_left, List.take_left']
  rw [atoi_of_le M hMi, atoi_of_le m hmi]
  have c3 : ¬ ((decimal M : Int) ≤ 0) := by omega
  simp [c3]

theorem readGlVersion_major_minor_witness :
    readGlVersion (legacyDriver "2.1 Mesa 7.0".toList) = ((decimal ['2'] : Int), (decimal ['1'] : Int)) :=
  readGlVersion_major_minor (legacyDriver "2.1 Mesa 7.0".toList) ['2'] ['1'] " Mesa 7.0".toList
    (by decide) (by decide) (by decide) (by decide) (by decide) (by decide) (by decide)
    (by decide) (by decide) (by decide) (by decide) (by decide)

/-- C7, counterexample: "2147483648.1" is of the form M "." m with runs of fewer
than 32 digits and M > 0, and readGlVersion does not yield (2147483648, 1):
the fields are 32-bit integers. -/
theorem readGlVersion_major_beyond_int :
    intQueryUsable (legacyDriver "2147483648.1".toList) = false ∧
    (legacyDriver "2147483648.1".toList).versionString
      = some ("2147483648".toList ++ '.' :: ("1".toList ++ [])) ∧
    allDigits "2147483648".toList = true ∧ "2147483648".toList.length < 32 ∧
    allDigits "1".toList = true ∧ "1".toList.length < 32 ∧
    0 < decimal "2147483648".toList ∧
    readGlVersion (legacyDriver "2147483648.1".toList)
      ≠ ((decimal "2147483648".toList : Int), (decimal "1".toList : Int)) := by
  decide

theorem digitRun_zero (mem : List Char)
    (h : ∀ c, mem.head? = some c → ¬ ('0' ≤ c ∧ c ≤ '9')) : digitRun mem = 0 := by
  have := digitRun_append [] mem rfl h
  simpa using this

/-- The malformed version strings readGlVersion reads within bounds resolve to
(0,0): a NULL pointer, a text that is empty or starts with a non-digit, and a
single number followed by a byte (a separator, or the terminating NUL) behind
which no digit stands. -/
theorem readGlVersion_malformed_in_bounds (gl : GlDriver) (hq : intQueryUsable gl = false) :
    (gl.versionString = none → readGlVersion gl = (0, 0)) ∧
    (∀ mem, gl.versionString = some mem →
      (∀ c, mem.head? = some c → ¬ ('0' ≤ c ∧ c ≤ '9')) → readGlVersion gl = (0, 0)) ∧
    (∀ M c rest, gl.versionString = some (M ++ c :: rest) → allDigits M = true →
      ¬ ('0' ≤ c ∧ c ≤ '9') → (∀ d, rest.head? = some d → ¬ ('0' ≤ d ∧ d ≤ '9')) →
      readGlVersion gl = (0, 0)) := by
  refine ⟨?_, ?_, ?_⟩
  · intro h
    simp [readGlVersion, hq, h]
  · intro mem h hd
    unfold readGlVersion
    simp only [hq, Bool.false_eq_true, if_false, h, digitRun_zero mem hd]
    split <;> simp
  · intro M c rest h hM hc hrest
    have hr1 : digitRun (M ++ c :: rest) = M.length :=
      digitRun_append M _ hM (by
        intro x hx
        simp only [List.head?_cons, Option.some.injEq] at hx
        subst hx
        exact hc)
    have hdrop : (M ++ c :: rest).drop (M.length + 1) = rest := by
      rw [← List.drop_drop]; simp
    unfold readGlVersion
    simp only [hq, Bool.false_eq_true, if_false, h, hr1, hdrop, digitRun_zero rest hrest]
    split
    · rfl
    · split
      · rfl
      · simp

/-- C6, the code at the failing input: the version string is the single number
"3"; readGlVersion steps over its terminating NUL and takes the minor from the
byte that follows the string in memory, here the digit 1, and stores (3, 1)
instead of (0, 0). -/
theorem readGlVersion_single_number_reads_past_end :
    intQueryUsable (legacyDriver ['3', Char.ofNat 0, '1', Char.ofNat 0]) = false ∧
    readGlVersion (legacyDriver ['3', Char.ofNat 0, '1', Char.ofNat 0]) = (3, 1) := by
  decide

/-! ## Lemmas on init -/

theorem findProcs_ok (gl : GlDriver) (fs : List String) (t : ProcTable) :
    (findProcs gl fs t).2 = fs.all (fun f => gl.procAddress f != 0) := by
  induction fs generalizing t with
  | nil => rfl
  | cons f fs ih =>
    cases h : (gl.procAddress f != 0) with
    | true => simp [findProcs, FindProc, h, ih]
    | false => simp [findProcs, FindProc, h]

theorem hasGlCore_ok (gl : GlDriver) (v : Int × Int) (a b : Int) (fs : List String)
    (t : ProcTable) :
    (hasGlCore gl v a b fs t).2 = tierSatisfied gl v a b fs := by
  unfold hasGlCore tierSatisfied
  cases h : IsGlGreaterEqual v a b with
  | true => simp [findProcs_ok]
  | false => simp

namespace Context

theorem ladder_version (c : Context) (h12 h13 h14 h15 h20 : Bool) :
    (ladder c h12 h13 h14 h15 h20).version =
      if h12 = false then (1, 1)
      else if h13 = false then (1, 2)
      else if h14 = false then (1, 3)
      else if h15 = false then (1, 4)
      else if h20 = false then (1, 5)
      else c.version := by
  cases h12 <;> cases h13 <;> cases h14 <;> cases h15 <;> cases h20 <;> rfl

theorem version_init (this : Context) (gl : GlDriver) :
    ((this.initLimits gl).initGroups gl).version = readGlVersion gl := rfl

/-- C9: the version advertised after init is (1,1), (1,2), (1,3), (1,4) or
(1,5) when the first unsatisfied tier of the ladder is 1.2, 1.3, 1.4, 1.5 or
2.0, and the reported version when every tier is satisfied; a driver reporting
3.0 with glActiveTexture unresolved is advertised as (1,2). -/
theorem init_ladder_clamp (this : Context) (gl : GlDriver) :
    (tierSatisfied gl (readGlVersion gl) 1 2 core12Procs = false →
      (this.init gl).version = (1, 1)) ∧
    (tierSatisfied gl (readGlVersion gl) 1 2 core12Procs = true →
      tierSatisfied gl (readGlVersion gl) 1 3 core13Procs = false →
      (this.init gl).version = (1, 2)) ∧
    (tierSatisfied gl (readGlVersion gl) 1 2 core12Procs = true →
      tierSatisfied gl (readGlVersion gl) 1 3 core13Procs = true →
      tierSatisfied gl (readGlVersion gl) 1 4 core14Procs = false →
      (this.init gl).version = (1, 3)) ∧
    (tierSatisfied gl (readGlVersion gl) 1 2 core12Procs = true →
      tierSatisfied gl (readGlVersion gl) 1 3 core13Procs = true →
      tierSatisfied gl (readGlVersion gl) 1 4 core14Procs = true →
      tierSatisfied gl (readGlVersion gl) 1 5 core15Procs = false →
      (this.init gl).version = (1, 4)) ∧
    (tierSatisfied gl (readGlVersion gl) 1 2 core12Procs = true →
      tierSatisfied gl (readGlVersion gl) 1 3 core13Procs = true →
      tierSatisfied gl (readGlVersion gl) 1 4 core14Procs = true →
      tierSatisfied gl (readGlVersion gl) 1 5 core15Procs = true →
      tierSatisfied gl (readGlVersion gl) 2 0 core20Procs = false →
      (this.init gl).version = (1, 5)) ∧
    (tierSatisfied gl (readGlVersion gl) 1 2 core12Procs = true →
      tierSatisfied gl (readGlVersion gl) 1 3 core13Procs = true →
      tierSatisfied gl (readGlVersion gl) 1 4 core14Procs = true →
      tierSatisfied gl (readGlVersion gl) 1 5 core15Procs = true →
      tierSatisfied gl (readGlVersion gl) 2 0 core20Procs = true →
      (this.init gl).version = readGlVersion gl) ∧
    readGlVersion lyingDriver = (3, 0) ∧
    ((constructed 0 0 0).init lyingDriver).version = (1, 2) := by
  have hv : (this.init gl).version =
      if tierSatisfied gl (readGlVersion gl) 1 2 core12Procs = false then (1, 1)
      else if tierSatisfied gl (readGlVersion gl) 1 3 core13Procs = false then (1, 2)
      else if tierSatisfied gl (readGlVersion gl) 1 4 core14Procs = false then (1, 3)
      else if tierSatisfied gl (readGlVersion gl) 1 5 core15Procs = false then (1, 4)
      else if tierSatisfied gl (readGlVersion gl) 2 0 core20Procs = false then (1, 5)
      else readGlVersion gl := by
    unfold init
    simp only []
    rw [ladder_version]
    simp only [hasGlCore_ok, version_init]
    rfl
  rw [hv]
  refine ⟨?_, ?_, ?_, ?_, ?_, ?_, by decide, by decide⟩
  · intro h1; simp [h1]
  · intro h1 h2; simp [h1, h2]
  · intro h1 h2 h3; simp [h1, h2, h3]
  · intro h1 h2 h3 h4; simp [h1, h2, h3, h4]
  · intro h1 h2 h3 h4 h5; simp [h1, h2, h3, h4, h5]
  · intro h1 h2 h3 h4 h5; simp [h1, h2, h3, h4, h5]

end Context

namespace Context

/-! ## ReleaseDelayed, in general -/

theorem releaseQueue_others (w : World) (q : List ResId) :
    (releaseQueue w q).resourcesMapRefs = w.resourcesMapRefs ∧
    (releaseQueue w q).queueRefs = w.queueRefs ∧
    (releaseQueue w q).messages = w.messages := by
  induction q generalizing w with
  | nil => exact ⟨rfl, rfl, rfl⟩
  | cons r q ih =>
    obtain ⟨h1, h2, h3⟩ := ih ((w.Release r).dropHandle r)
    exact ⟨h1, h2, h3⟩

theorem drained_fields (this : Context) (w : World) :
    (drained this w).resourcesMaps = w.resourcesMaps ∧
    (drained this w).delayMaps = w.delayMaps ∧
    (drained this w).queues this.myReleaseQueue = [] ∧
    (drained this w).released = w.released ++ w.queues this.myReleaseQueue ∧
    (drained this w).resourcesMapRefs = w.resourcesMapRefs ∧
    (drained this w).messages = w.messages := by
  obtain ⟨f1, f2, -, f4⟩ := releaseQueue_fields w (w.queues this.myReleaseQueue)
  obtain ⟨g1, -, g3⟩ := releaseQueue_others w (w.queues this.myReleaseQueue)
  refine ⟨f1, f2, ?_, f4, g1, g3⟩
  simp [drained]

theorem ReleaseDelayed_eq (this : Context) (w : World) :
    this.ReleaseDelayed w =
      { (swept this w).world with
          delayMaps := Function.update (swept this w).world.delayMaps this.myDelayed
            (afterSweep (w.delayMaps this.myDelayed)) } := by
  obtain ⟨-, f2, -, -, -, -⟩ := drained_fields this w
  have h0 : this.ReleaseDelayed w =
      { (((drained this w).delayMaps this.myDelayed).foldl (delayedStep this)
            { world := drained this w, visited := [], aDeadList := [] }).world with
        delayMaps := Function.update
          (((drained this w).delayMaps this.myDelayed).foldl (delayedStep this)
            { world := drained this w, visited := [], aDeadList := [] }).world.delayMaps
          this.myDelayed
          ((((drained this w).delayMaps this.myDelayed).foldl (delayedStep this)
            { world := drained this w, visited := [], aDeadList := [] }).aDeadList.foldl
              DataMap.UnBind
            (((drained this w).delayMaps this.myDelayed).foldl (delayedStep this)
              { world := drained this w, visited := [], aDeadList := [] }).visited) } := rfl
  rw [f2] at h0
  obtain ⟨-, -, g3, g4⟩ := foldl_delayedStep_fields this (w.delayMaps this.myDelayed)
    { world := drained this w, visited := [], aDeadList := [] }
  rw [h0, foldl_UnBind, g3, g4]
  simp [afterSweep, swept]

theorem delayedStep_others (this : Context) (s : DelayedLoop) (e : Key × Int) :
    (delayedStep this s e).world.resourcesMapRefs = s.world.resourcesMapRefs ∧
    (delayedStep this s e).world.queueRefs = s.world.queueRefs ∧
    (delayedStep this s e).world.messages = s.world.messages := by
  unfold delayedStep
  by_cases h : e.2 + 1 ≤ 2
  · simp [h]
  · simp only [h, if_false]
    split
    · exact ⟨rfl, rfl, rfl⟩
    · split
      · exact ⟨rfl, rfl, rfl⟩
      · split
        · exact ⟨rfl, rfl, rfl⟩
        · exact ⟨rfl, rfl, rfl⟩

theorem foldl_delayedStep_others (this : Context) (l : DataMap Key Int) (s : DelayedLoop) :
    (l.foldl (delayedStep this) s).world.resourcesMapRefs = s.world.resourcesMapRefs ∧
    (l.foldl (delayedStep this) s).world.queueRefs = s.world.queueRefs ∧
    (l.foldl (delayedStep this) s).world.messages = s.world.messages := by
  induction l generalizing s with
  | nil => exact ⟨rfl, rfl, rfl⟩
  | cons e l ih =>
    obtain ⟨h1, h2, h3⟩ := ih (delayedStep this s e)
    obtain ⟨g1, g2, g3⟩ := delayedStep_others this s e
    exact ⟨h1.trans g1, h2.trans g2, h3.trans g3⟩

theorem swept_fields (this : Context) (w : World) :
    (swept this w).world.queues this.myReleaseQueue = [] ∧
    (swept this w).world.resourcesMapRefs = w.resourcesMapRefs ∧
    (swept this w).world.messages = w.messages := by
  obtain ⟨-, -, d3, -, d5, d6⟩ := drained_fields this w
  obtain ⟨-, f2, -, -⟩ := foldl_delayedStep_fields this (w.delayMaps this.myDelayed)
    { world := drained this w, visited := [], aDeadList := [] }
  obtain ⟨g1, -, g3⟩ := foldl_delayedStep_others this (w.delayMaps this.myDelayed)
    { world := drained this w, visited := [], aDeadList := [] }
  refine ⟨?_, ?_, ?_⟩
  · show ((w.delayMaps this.myDelayed).foldl (delayedStep this) _).world.queues _ = []
    rw [f2]; exact d3
  · exact g1.trans d5
  · exact g3.trans d6

/-- C16, amended: ReleaseDelayed sends nothing to the message sink, whatever it
releases or drops: an entry dropped as a lifecycle anomaly leaves the queue
silently. -/
theorem ReleaseDelayed_is_silent (this : Context) (w : World) :
    (this.ReleaseDelayed w).messages = w.messages := by
  rw [ReleaseDelayed_eq]
  exact (swept_fields this w).2.2

/-- C16, counterexample: the deferred queue holds the key "gone", which the
registry does not bind, with the value 2; ReleaseDelayed drops the entry and no
message has reached the sink. -/
theorem ReleaseDelayed_drops_without_message :
    (staleWorld.delayMaps 0).IsBound "gone" = true ∧
    (staleWorld.resourcesMaps 0).IsBound "gone" = false ∧
    (((constructed 0 0 0).ReleaseDelayed staleWorld).delayMaps 0).IsBound "gone" = false ∧
    staleWorld.messages = [] ∧
    ((constructed 0 0 0).ReleaseDelayed staleWorld).messages = [] := by
  decide

end Context

namespace Context

/-! ## The immediate-release queue -/

theorem foldl_DelayedRelease (this : Context) (rs : List ResId) (w : World) :
    (rs.foldl this.DelayedRelease w).queues this.myReleaseQueue
      = w.queues this.myReleaseQueue ++ rs ∧
    (rs.foldl this.DelayedRelease w).released = w.released ∧
    (rs.foldl this.DelayedRelease w).resourcesMaps = w.resourcesMaps ∧
    (rs.foldl this.DelayedRelease w).delayMaps = w.delayMaps := by
  induction rs generalizing w with
  | nil => simp
  | cons r rs ih =>
    obtain ⟨h1, h2, h3, h4⟩ := ih (this.DelayedRelease w r)
    simp only [List.foldl_cons]
    refine ⟨?_, h2, h3, h4⟩
    rw [h1]
    simp [DelayedRelease, World.copyHandle, World.dropHandle]

theorem delayedStep_trace (this : Context) (s : DelayedLoop) (e : Key × Int) :
    ∃ t, (delayedStep this s e).world.released = s.world.released ++ t ∧
      (∀ r ∈ t, ∃ k, (k, r) ∈ s.world.resourcesMaps this.mySharedResources) ∧
      (∀ x ∈ (delayedStep this s e).world.resourcesMaps this.mySharedResources,
        x ∈ s.world.resourcesMaps this.mySharedResources) := by
  unfold delayedStep
  by_cases h : e.2 + 1 ≤ 2
  · exact ⟨[], by simp [h], by simp, by simp [h]⟩
  · simp only [h, if_false]
    split
    · exact ⟨[], by simp, by simp, fun x hx => hx⟩
    · split
      · exact ⟨[], by simp, by simp, fun x hx => hx⟩
      · rename_i aRes hF
        split
        · exact ⟨[], by simp, by simp, fun x hx => hx⟩
        · refine ⟨[aRes], rfl, ?_, ?_⟩
          · intro r hr
            simp only [List.mem_singleton] at hr
            subst hr
            exact ⟨e.1, DataMap.mem_of_Find _ _ _ hF⟩
          · intro x hx
            simp only [World.Release, World.dropHandle, Function.update_same] at hx
            exact (DataMap.mem_UnBind _ _ _ hx).1

theorem foldl_delayedStep_trace (this : Context) (l : DataMap Key Int) (s : DelayedLoop) :
    ∃ t, (l.foldl (delayedStep this) s).world.released = s.world.released ++ t ∧
      (∀ r ∈ t, ∃ k, (k, r) ∈ s.world.resourcesMaps this.mySharedResources) ∧
      (∀ x ∈ (l.foldl (delayedStep this) s).world.resourcesMaps this.mySharedResources,
        x ∈ s.world.resourcesMaps this.mySharedResources) := by
  induction l generalizing s with
  | nil => exact ⟨[], by simp, by simp, fun x hx => hx⟩
  | cons e l ih =>
    obtain ⟨t1, a1, a2, a3⟩ := delayedStep_trace this s e
    obtain ⟨t2, b1, b2, b3⟩ := ih (delayedStep this s e)
    refine ⟨t1 ++ t2, ?_, ?_, ?_⟩
    · simp only [List.foldl_cons]
      rw [b1, a1, List.append_assoc]
    · intro r hr
      rcases List.mem_append.1 hr with h | h
      · exact a2 r h
      · obtain ⟨k, hk⟩ := b2 r h
        exact ⟨k, a3 _ hk⟩
    · intro x hx
      exact a3 x (b3 x hx)

/-- C14: when DelayedRelease has put r1, ..., rn in the immediate-release queue,
one call of ReleaseDelayed appends to the release trace first the content of
the queue, front first and each entry once (r1, ..., rn behind what the queue
held before), then only releases of resources bound in the registry, those of
the deferred entries; the queue is left empty. -/
theorem ReleaseDelayed_drains_queue_first (this : Context) (w : World) (rs : List ResId) :
    (rs.foldl this.DelayedRelease w).queues this.myReleaseQueue
      = w.queues this.myReleaseQueue ++ rs ∧
    (∃ tail, (this.ReleaseDelayed (rs.foldl this.DelayedRelease w)).released
        = w.released ++ (w.queues this.myReleaseQueue ++ rs) ++ tail ∧
      ∀ r ∈ tail, ∃ k, (k, r) ∈ w.resourcesMaps this.mySharedResources) ∧
    (∀ r, (∀ k, (k, r) ∉ w.resourcesMaps this.mySharedResources) →
      (this.ReleaseDelayed (rs.foldl this.DelayedRelease w)).releaseCount r
        = w.releaseCount r + (w.queues this.myReleaseQueue ++ rs).count r) ∧
    (this.ReleaseDelayed (rs.foldl this.DelayedRelease w)).queues this.myReleaseQueue = [] := by
  obtain ⟨q1, q2, q3, q4⟩ := foldl_DelayedRelease this rs w
  have key : ∃ tail, (this.ReleaseDelayed (rs.foldl this.DelayedRelease w)).released
        = w.released ++ (w.queues this.myReleaseQueue ++ rs) ++ tail ∧
      ∀ r ∈ tail, ∃ k, (k, r) ∈ w.resourcesMaps this.mySharedResources := ?_
  refine ⟨q1, key, ?_, ?_⟩
  · intro r hr
    obtain ⟨tail, h1, h2⟩ := key
    have : r ∉ tail := fun h => by
      obtain ⟨k, hk⟩ := h2 r h
      exact hr k hk
    simp [World.releaseCount, h1, List.count_append, List.count_eq_zero_of_not_mem this]
  rotate_left
  · obtain ⟨d1, -, -, d4, -, -⟩ := drained_fields this (rs.foldl this.DelayedRelease w)
    obtain ⟨t, t1, t2, -⟩ := foldl_delayedStep_trace this
      ((rs.foldl this.DelayedRelease w).delayMaps this.myDelayed)
      { world := drained this (rs.foldl this.DelayedRelease w), visited := [], aDeadList := [] }
    refine ⟨t, ?_, ?_⟩
    · rw [ReleaseDelayed_eq]
      show (swept this _).world.released = _
      unfold swept
      rw [t1]
      show (drained this _).released ++ t = _
      rw [d4, q1, q2]
    · intro r hr
      obtain ⟨k, hk⟩ := t2 r hr
      refine ⟨k, ?_⟩
      have : (drained this (rs.foldl this.DelayedRelease w)).resourcesMaps = w.resourcesMaps := by
        rw [d1, q3]
      simpa [this] using hk
  · rw [ReleaseDelayed_eq]
    exact (swept_fields this _).1

end Context

namespace Context

/-! ## Entries dropped by ReleaseDelayed -/

theorem delayedStep_dropped (this : Context) (s : DelayedLoop) (e : Key × Int)
    (hc : 2 < e.2 + 1)
    (h : (s.world.resourcesMaps this.mySharedResources).IsBound e.1 = false ∨
      ∃ r, (s.world.resourcesMaps this.mySharedResources).Find e.1 = some r ∧
        1 < s.world.refCount r) :
    (delayedStep this s e).world = s.world ∧
    (delayedStep this s e).aDeadList = s.aDeadList ++ [e.1] := by
  have hc' : ¬ (e.2 + 1 ≤ 2) := by omega
  unfold delayedStep
  rcases h with h | ⟨r, hF, hr⟩
  · simp [hc', h]
  · simp [hc', DataMap.IsBound_of_Find _ _ _ hF, hF, hr]

theorem delayedStep_Reacquired (this : Context) (K : Key) (r : ResId) (n : Nat)
    (s : DelayedLoop) (e : Key × Int) (hs : Reacquired this K r n s.world) :
    Reacquired this K r n (delayedStep this s e).world := by
  unfold delayedStep
  by_cases h : e.2 + 1 ≤ 2
  · simpa [h] using hs
  · simp only [h, if_false]
    split
    · exact hs
    · split
      · exact hs
      · rename_i aRes hF
        split
        · exact hs
        · rename_i hcnt
          obtain ⟨i1, i2, i3⟩ := hs
          have hne : aRes ≠ r := by
            intro hr
            rw [hr] at hcnt
            exact hcnt i2
          have hk : e.1 ≠ K := by
            intro hk
            rw [hk, i1] at hF
            exact hne (Option.some.inj hF).symm
          refine ⟨?_, ?_, ?_⟩
          · simpa [World.Release, World.dropHandle, DataMap.Find_UnBind_ne _ _ _ hk] using i1
          · simpa [World.Release, World.dropHandle, Function.update_noteq hne.symm] using i2
          · have hz : List.count r [aRes] = 0 := by
              simp [List.count_cons, hne]
            simpa [World.Release, World.dropHandle, World.releaseCount, List.count_append,
              hz] using i3

theorem foldl_delayedStep_Reacquired (this : Context) (K : Key) (r : ResId) (n : Nat)
    (l : DataMap Key Int) (s : DelayedLoop) (hs : Reacquired this K r n s.world) :
    Reacquired this K r n (l.foldl (delayedStep this) s).world := by
  induction l generalizing s with
  | nil => exact hs
  | cons e l ih =>
    simp only [List.foldl_cons]
    exact ih _ (delayedStep_Reacquired this K r n s e hs)

theorem delayedStep_unbound (this : Context) (K : Key) (s : DelayedLoop) (e : Key × Int)
    (hs : (s.world.resourcesMaps this.mySharedResources).IsBound K = false) :
    ((delayedStep this s e).world.resourcesMaps this.mySharedResources).IsBound K = false := by
  unfold delayedStep
  by_cases h : e.2 + 1 ≤ 2
  · simpa [h] using hs
  · simp only [h, if_false]
    split
    · exact hs
    · split
      · exact hs
      · split
        · exact hs
        · simp only [World.Release, World.dropHandle, Function.update_same]
          by_cases hk : e.1 = K
          · rw [hk]; exact DataMap.IsBound_UnBind_self _ _
          · rw [DataMap.IsBound_UnBind_ne _ _ _ hk]; exact hs

theorem foldl_delayedStep_unbound (this : Context) (K : Key) (l : DataMap Key Int)
    (s : DelayedLoop)
    (hs : (s.world.resourcesMaps this.mySharedResources).IsBound K = false) :
    ((l.foldl (delayedStep this) s).world.resourcesMaps this.mySharedResources).IsBound K
      = false := by
  induction l generalizing s with
  | nil => exact hs
  | cons e l ih =>
    simp only [List.foldl_cons]
    exact ih _ (delayedStep_unbound this K s e hs)

theorem afterSweep_removes (d : DataMap Key Int) (K : Key) (c : Int) (hmem : (K, c) ∈ d)
    (hc : 2 < c + 1) : (afterSweep d).IsBound K = false := by
  have hdead : K ∈ (d.filter (fun e => !decide (e.2 + 1 ≤ 2))).map Prod.fst := by
    refine List.mem_map.2 ⟨(K, c), List.mem_filter.2 ⟨hmem, ?_⟩, rfl⟩
    have : ¬ (c + 1 ≤ 2) := by omega
    simp [this]
  cases hb : (afterSweep d).IsBound K with
  | false => rfl
  | true =>
    simp only [DataMap.IsBound, List.any_eq_true, decide_eq_true_eq] at hb
    obtain ⟨x, hx, hxk⟩ := hb
    simp only [afterSweep, List.mem_filter] at hx
    rw [hxk] at hx
    simp [hdead] at hx

theorem drained_Reacquired (this : Context) (K : Key) (r : ResId) (w : World)
    (hF : (w.resourcesMaps this.mySharedResources).Find K = some r) (hcnt : 1 < w.refCount r)
    (hq : r ∉ w.queues this.myReleaseQueue) :
    Reacquired this K r (w.releaseCount r) (drained this w) ∧
    (drained this w).refCount r = w.refCount r := by
  obtain ⟨d1, -, -, d4, -, -⟩ := drained_fields this w
  have hrc : (drained this w).refCount r = w.refCount r :=
    releaseQueue_refCount w _ r hq
  refine ⟨⟨?_, ?_, ?_⟩, hrc⟩
  · rw [d1]; exact hF
  · rw [hrc]; exact hcnt
  · simp [World.releaseCount, d4, List.count_append, List.count_eq_zero_of_not_mem hq]

/-- C15: when ReleaseDelayed visits a deferred entry whose incremented value is
beyond 2 and whose key is not bound in the registry, or is bound to a resource
of reference count greater than 1, that pass of the loop leaves the world as it
is (no release routine is called, the registry is unchanged) and puts the key
on the dead list.  For the whole call: such an entry for K is gone from the
deferred queue after the call; a key that was not bound is still not bound; a
key bound to a resource r that others hold (count above 1, r not in the
immediate queue) is still bound to r, and r has not been released. -/
theorem ReleaseDelayed_drops_entry (this : Context) (w : World) (K : Key) (c : Int)
    (hmem : (K, c) ∈ w.delayMaps this.myDelayed) (hc : 2 < c + 1) :
    (∀ (s : DelayedLoop) (e : Key × Int), 2 < e.2 + 1 →
      ((s.world.resourcesMaps this.mySharedResources).IsBound e.1 = false ∨
        ∃ r, (s.world.resourcesMaps this.mySharedResources).Find e.1 = some r ∧
          1 < s.world.refCount r) →
      (delayedStep this s e).world = s.world ∧
      (delayedStep this s e).aDeadList = s.aDeadList ++ [e.1]) ∧
    ((this.ReleaseDelayed w).delayMaps this.myDelayed).IsBound K = false ∧
    ((w.resourcesMaps this.mySharedResources).IsBound K = false →
      this.GetResource (this.ReleaseDelayed w) K = none) ∧
    (∀ r, this.GetResource w K = some r → 1 < w.refCount r →
      r ∉ w.queues this.myReleaseQueue →
      this.GetResource (this.ReleaseDelayed w) K = some r ∧
      (this.ReleaseDelayed w).releaseCount r = w.releaseCount r ∧
      1 < (this.ReleaseDelayed w).refCount r) := by
  refine ⟨fun s e h1 h2 => delayedStep_dropped this s e h1 h2, ?_, ?_, ?_⟩
  · rw [ReleaseDelayed_eq]
    simp only [Function.update_same]
    exact afterSweep_removes _ K c hmem hc
  · intro hb
    rw [GetResource_eq_Find, ReleaseDelayed_eq]
    apply DataMap.Find_eq_none_of_not_bound
    apply foldl_delayedStep_unbound
    show ((drained this w).resourcesMaps this.mySharedResources).IsBound K = false
    rw [(drained_fields this w).1]; exact hb
  · intro r hr hcnt hq
    rw [GetResource_eq_Find] at hr
    obtain ⟨h0, -⟩ := drained_Reacquired this K r w hr hcnt hq
    have h1 := foldl_delayedStep_Reacquired this K r _ (w.delayMaps this.myDelayed)
      { world := drained this w, visited := [], aDeadList := [] } h0
    rw [GetResource_eq_Find, ReleaseDelayed_eq]
    exact ⟨h1.1, h1.2.2, h1.2.1⟩

theorem ReleaseDelayed_drops_entry_witness :
    (((constructed 0 0 0).ReleaseDelayed (sharedWorld 2 2)).delayMaps 0).IsBound "tex" = false ∧
    (constructed 0 0 0).GetResource ((constructed 0 0 0).ReleaseDelayed (sharedWorld 2 2)) "tex"
      = some 7 ∧
    ((constructed 0 0 0).ReleaseDelayed (sharedWorld 2 2)).releaseCount 7
      = (sharedWorld 2 2).releaseCount 7 :=
  have h := ReleaseDelayed_drops_entry (constructed 0 0 0) (sharedWorld 2 2) "tex" 2
    (by decide) (by decide)
  have h3 := h.2.2.2 7 (by decide) (by decide) (by decide)
  ⟨h.2.1, h3.1, h3.2.1⟩

end Context

namespace Context

/-! ## ShareResource -/

/-- C11: ShareResource (K, R) answers false and leaves the world, hence the
registry, unchanged when K is the empty string or R is the null handle; for a
non-empty K and a non-null R it answers true exactly when K was not bound
before the call, and K is then bound to R. -/
theorem ShareResource_contract (this : Context) (w : World) (K : Key) (R : ResId) :
    (∀ theResource : Option ResId, this.ShareResource w "" theResource = (false, w)) ∧
    this.ShareResource w K none = (false, w) ∧
    (K ≠ "" → ((this.ShareResource w K (some R)).1 = true ↔
      (w.resourcesMaps this.mySharedResources).IsBound K = false)) ∧
    ((this.ShareResource w K (some R)).1 = true →
      this.GetResource (this.ShareResource w K (some R)).2 K = some R) := by
  refine ⟨?_, rfl, ?_, ?_⟩
  · intro r
    have hE : "".isEmpty = true := by decide
    cases r <;> simp [ShareResource, hE]
  · intro hne
    constructor
    · intro h
      exact (ShareResource_true this w K R h).2
    · intro h
      exact (GetResource_after_ShareResource this this w K R hne h rfl).1
  · intro h
    obtain ⟨hne, hK⟩ := ShareResource_true this w K R h
    exact (GetResource_after_ShareResource this this w K R hne hK rfl).2

/-! ## Init -/

/-- C12: Init on a context that is already initialized answers true and leaves
every field of the context as it was; the driver is not consulted, the result
is the same for every window system and every driver. -/
theorem Init_idempotent (this : Context) (ws : WindowSystem) (gl : GlDriver)
    (h : this.myIsInitialized = true) :
    this.Init ws gl = (true, this) := by
  simp [Init, h]

theorem Init_idempotent_witness :
    ((constructed 0 0 0).Init ⟨1, 1, 1⟩ lyingDriver).2.Init ⟨0, 0, 0⟩ (legacyDriver [])
      = (true, ((constructed 0 0 0).Init ⟨1, 1, 1⟩ lyingDriver).2) :=
  Init_idempotent _ _ _ (by decide)

/-- C13: on a freshly constructed context, when no hardware context is current,
Init answers false and init has not run: the version is (0,0), every boolean
capability is false, every feature group and core tier is NULL, the numeric
limits keep their defaults 1, 1024 and 6, and the context is not initialized. -/
theorem Init_without_current_context (theResources theDelayed theQueue : Addr)
    (ws : WindowSystem) (gl : GlDriver) (h : ws.currentContext = 0) :
    ((constructed theResources theDelayed theQueue).Init ws gl).1 = false ∧
    ((constructed theResources theDelayed theQueue).Init ws gl).2
      = { constructed theResources theDelayed theQueue with
          myDisplay := ws.currentDisplay, myGContext := 0, myWindow := ws.currentDrawable } ∧
    ((constructed theResources theDelayed theQueue).Init ws gl).2.version = (0, 0) ∧
    (((constructed theResources theDelayed theQueue).Init ws gl).2.arbNPTW = false ∧
      ((constructed theResources theDelayed theQueue).Init ws gl).2.extBgra = false ∧
      ((constructed theResources theDelayed theQueue).Init ws gl).2.extAnis = false ∧
      ((constructed theResources theDelayed theQueue).Init ws gl).2.extPDS = false ∧
      ((constructed theResources theDelayed theQueue).Init ws gl).2.atiMem = false ∧
      ((constructed theResources theDelayed theQueue).Init ws gl).2.nvxMem = false) ∧
    (((constructed theResources theDelayed theQueue).Init ws gl).2.arbDbg = none ∧
      ((constructed theResources theDelayed theQueue).Init ws gl).2.arbVBO = none ∧
      ((constructed theResources theDelayed theQueue).Init ws gl).2.arbTBO = none ∧
      ((constructed theResources theDelayed theQueue).Init ws gl).2.arbIns = none ∧
      ((constructed theResources theDelayed theQueue).Init ws gl).2.extFBO = none ∧
      ((constructed theResources theDelayed theQueue).Init ws gl).2.extGS = none) ∧
    (((constructed theResources theDelayed theQueue).Init ws gl).2.core12 = none ∧
      ((constructed theResources theDelayed theQueue).Init ws gl).2.core13 = none ∧
      ((constructed theResources theDelayed theQueue).Init ws gl).2.core14 = none ∧
      ((constructed theResources theDelayed theQueue).Init ws gl).2.core15 = none ∧
      ((constructed theResources theDelayed theQueue).Init ws gl).2.core20 = none) ∧
    (((constructed theResources theDelayed theQueue).Init ws gl).2.myAnisoMax = 1 ∧
      ((constructed theResources theDelayed theQueue).Init ws gl).2.myMaxTexDim = 1024 ∧
      ((constructed theResources theDelayed theQueue).Init ws gl).2.myMaxClipPlanes = 6) ∧
    ((constructed theResources theDelayed theQueue).Init ws gl).2.myIsInitialized = false := by
  have hI : (constructed theResources theDelayed theQueue).Init ws gl
      = (false, { constructed theResources theDelayed theQueue with
          myDisplay := ws.currentDisplay, myGContext := 0,
          myWindow := ws.currentDrawable }) := by
    simp [Init, constructed, h]
  rw [hI]
  exact ⟨rfl, rfl, rfl, ⟨rfl, rfl, rfl, rfl, rfl, rfl⟩, ⟨rfl, rfl, rfl, rfl, rfl, rfl⟩,
    ⟨rfl, rfl, rfl, rfl, rfl⟩, ⟨rfl, rfl, rfl⟩, rfl⟩

theorem Init_without_current_context_witness :
    ((constructed 0 0 0).Init ⟨1, 0, 1⟩ lyingDriver).1 = false ∧
    ((constructed 0 0 0).Init ⟨1, 0, 1⟩ lyingDriver).2.version = (0, 0) ∧
    ((constructed 0 0 0).Init ⟨1, 0, 1⟩ lyingDriver).2.myIsInitialized = false :=
  have h := Init_without_current_context 0 0 0 ⟨1, 0, 1⟩ lyingDriver rfl
  ⟨h.1, h.2.2.1, h.2.2.2.2.2.2.2⟩

end Context

namespace Context

/-! ## Releases and placements -/

theorem UnBind_of_not_mem {V : Type} (m : DataMap Key V) (k : Key)
    (h : k ∉ m.map Prod.fst) : DataMap.UnBind m k = m := by
  unfold DataMap.UnBind
  rw [List.filter_eq_self]
  intro e he
  have : e.1 ≠ k := fun hk => h (List.mem_map.2 ⟨e, he, hk⟩)
  simp [this]

theorem UnBind_count (m : DataMap Key ResId) (k : Key) (v : ResId) (hd : DistinctKeys m)
    (hF : m.Find k = some v) (r : ResId) :
    ((DataMap.UnBind m k).map Prod.snd).count r + [v].count r = (m.map Prod.snd).count r := by
  induction m with
  | nil => cases hF
  | cons e m ih =>
    unfold DistinctKeys at hd
    rw [List.map_cons, List.nodup_cons] at hd
    by_cases he : e.1 = k
    · simp only [DataMap.Find, he, if_true, Option.some.injEq] at hF
      have hu : DataMap.UnBind (e :: m) k = m := by
        have : DataMap.UnBind (e :: m) k = DataMap.UnBind m k := by
          simp [DataMap.UnBind, he]
        rw [this]
        exact UnBind_of_not_mem m k (he ▸ hd.1)
      rw [hu, List.map_cons, hF]
      simp only [List.count_cons, List.count_nil]
      omega
    · simp only [DataMap.Find, he, if_false] at hF
      have hu : DataMap.UnBind (e :: m) k = e :: DataMap.UnBind m k := by
        simp [DataMap.UnBind, he]
      have hi := ih hd.2 hF
      rw [hu, List.map_cons, List.map_cons]
      simp only [List.count_cons, List.count_nil] at hi ⊢
      omega

theorem UnBind_distinct {V : Type} (m : DataMap Key V) (k : Key) (hd : DistinctKeys m) :
    DistinctKeys (DataMap.UnBind m k) := by
  unfold DistinctKeys at *
  exact List.Nodup.sublist (List.Sublist.map _ (List.filter_sublist _)) hd

theorem Bind_distinct {V : Type} (m : DataMap Key V) (k : Key) (v : V) (hd : DistinctKeys m)
    (hb : m.IsBound k = false) : DistinctKeys (m ++ [(k, v)]) := by
  unfold DistinctKeys at *
  rw [List.map_append, List.nodup_append]
  refine ⟨hd, by simp, ?_⟩
  intro a ha hb'
  simp only [List.map_cons, List.map_nil, List.mem_singleton] at hb'
  subst hb'
  obtain ⟨e, he, hek⟩ := List.mem_map.1 ha
  have : m.IsBound a = true := by
    simp only [DataMap.IsBound, List.any_eq_true, decide_eq_true_eq]
    exact ⟨e, he, hek⟩
  rw [hb] at this; cases this

theorem ShareResource_Balanced (this : Context) (n : ResId → Nat) (w : World) (K : Key)
    (R : ResId) (h : Balanced this n w) :
    Balanced this
      (fun r => n r + (if (this.ShareResource w K (some R)).1 then [R] else []).count r)
      (this.ShareResource w K (some R)).2 := by
  cases hs : (this.ShareResource w K (some R)).1 with
  | false =>
    have hw : (this.ShareResource w K (some R)).2 = w := by
      cases hb : (w.resourcesMaps this.mySharedResources).IsBound K with
      | true => rw [ShareResource_bound this w K _ hb]
      | false =>
        unfold ShareResource at hs ⊢
        by_cases hE : K.isEmpty = true
        · simp [hE]
        · simp [hE, DataMap.Bind, hb] at hs
    rw [hw]
    simpa using h
  | true =>
    obtain ⟨hne, hK⟩ := ShareResource_true this w K R hs
    rw [ShareResource_fresh this w K R hne hK]
    obtain ⟨h1, h2⟩ := h
    refine ⟨?_, ?_⟩
    · simpa using Bind_distinct _ K R h1 hK
    · intro r
      have a := h2 r
      simp only [World.releaseCount, World.copyHandle, Function.update_same, List.map_append,
        List.map_cons, List.map_nil, List.count_append, if_true] at a ⊢
      omega

theorem ReleaseResource_Balanced (this : Context) (n : ResId → Nat) (w : World) (K : Key)
    (d : Bool) (h : Balanced this n w) : Balanced this n (this.ReleaseResource w K d) := by
  unfold ReleaseResource
  split
  · exact h
  · split
    · exact h
    · rename_i aRes hF
      split
      · exact h
      · cases d with
        | true => exact h
        | false =>
          obtain ⟨h1, h2⟩ := h
          simp only [Bool.false_eq_true, if_false]
          refine ⟨?_, ?_⟩
          · simpa [World.Release, World.dropHandle] using UnBind_distinct _ K h1
          · intro r
            have a := h2 r
            have b := UnBind_count _ K aRes h1 hF r
            simp only [World.releaseCount, World.Release, World.dropHandle,
              Function.update_same, List.count_append] at a ⊢
            omega

theorem DelayedRelease_Balanced (this : Context) (n : ResId → Nat) (w : World) (R : ResId)
    (h : Balanced this n w) :
    Balanced this (fun r => n r + [R].count r) (this.DelayedRelease w R) := by
  obtain ⟨h1, h2⟩ := h
  refine ⟨h1, ?_⟩
  intro r
  have a := h2 r
  simp only [DelayedRelease, World.releaseCount, World.copyHandle, World.dropHandle,
    Function.update_same, List.count_append] at a ⊢
  omega

theorem delayedStep_Balanced (this : Context) (n : ResId → Nat) (s : DelayedLoop)
    (e : Key × Int) (h : Balanced this n s.world) :
    Balanced this n (delayedStep this s e).world := by
  unfold delayedStep
  by_cases hc : e.2 + 1 ≤ 2
  · simpa [hc] using h
  · simp only [hc, if_false]
    split
    · exact h
    · split
      · exact h
      · rename_i aRes hF
        split
        · exact h
        · obtain ⟨h1, h2⟩ := h
          refine ⟨?_, ?_⟩
          · simpa [World.Release, World.dropHandle] using UnBind_distinct _ e.1 h1
          · intro r
            have a := h2 r
            have b := UnBind_count _ e.1 aRes h1 hF r
            simp only [World.releaseCount, World.Release, World.dropHandle,
              Function.update_same, List.count_append] at a ⊢
            omega

theorem foldl_delayedStep_Balanced (this : Context) (n : ResId → Nat) (l : DataMap Key Int)
    (s : DelayedLoop) (h : Balanced this n s.world) :
    Balanced this n (l.foldl (delayedStep this) s).world := by
  induction l generalizing s with
  | nil => exact h
  | cons e l ih =>
    simp only [List.foldl_cons]
    exact ih _ (delayedStep_Balanced this n s e h)

theorem ReleaseDelayed_Balanced (this : Context) (n : ResId → Nat) (w : World)
    (h : Balanced this n w) : Balanced this n (this.ReleaseDelayed w) := by
  obtain ⟨d1, -, d3, d4, -, -⟩ := drained_fields this w
  have h0 : Balanced this n (drained this w) := by
    obtain ⟨h1, h2⟩ := h
    refine ⟨by rw [d1]; exact h1, ?_⟩
    intro r
    have a := h2 r
    simp only [World.releaseCount] at a ⊢
    rw [d1, d3, d4, List.count_append]
    simp only [List.count_nil]
    omega
  have h1 := foldl_delayedStep_Balanced this n (w.delayMaps this.myDelayed)
    { world := drained this w, visited := [], aDeadList := [] } h0
  rw [ReleaseDelayed_eq]
  exact h1

theorem call_Balanced (this : Context) (base : ResId → Nat) (s : World × List ResId)
    (c : Call) (h : Balanced this (fun r => base r + s.2.count r) s.1) :
    Balanced this (fun r => base r + (call this s c).2.count r) (call this s c).1 := by
  cases c with
  | ShareResource k r =>
    cases r with
    | none => exact h
    | some r =>
      have hb := ShareResource_Balanced this _ s.1 k r h
      simp only [call]
      cases hs : (this.ShareResource s.1 k (some r)).1 with
      | false => simpa [hs] using hb
      | true =>
        simp only [hs, if_true, List.count_append] at hb ⊢
        refine ⟨hb.1, fun x => ?_⟩
        rw [hb.2 x]; show _ + _ + _ = _ + (_ + _); omega
  | ReleaseResource k d => exact ReleaseResource_Balanced this _ s.1 k d h
  | DelayedRelease r =>
    have hb := DelayedRelease_Balanced this _ s.1 r h
    simp only [call, List.count_append]
    refine ⟨hb.1, fun x => ?_⟩
    rw [hb.2 x]; show _ + _ + _ = _ + (_ + _); omega
  | ReleaseDelayed => exact ReleaseDelayed_Balanced this _ s.1 h
  | copyHandle r => exact h
  | dropHandle r => exact h

theorem foldl_call_Balanced (this : Context) (base : ResId → Nat) (cs : List Call)
    (s : World × List ResId) (h : Balanced this (fun r => base r + s.2.count r) s.1) :
    Balanced this (fun r => base r + (cs.foldl (call this) s).2.count r)
      (cs.foldl (call this) s).1 := by
  induction cs generalizing s with
  | nil => exact h
  | cons c cs ih =>
    simp only [List.foldl_cons]
    exact ih _ (call_Balanced this base s c h)

end Context

namespace Context

/-! ## Destruction -/

theorem releaseAll_fields (w : World) (rs : List ResId) :
    (releaseAll w rs).released = w.released ++ rs ∧
    (releaseAll w rs).refCount = w.refCount ∧
    (releaseAll w rs).resourcesMaps = w.resourcesMaps ∧
    (releaseAll w rs).resourcesMapRefs = w.resourcesMapRefs ∧
    (releaseAll w rs).delayMaps = w.delayMaps ∧
    (releaseAll w rs).queues = w.queues ∧
    (releaseAll w rs).queueRefs = w.queueRefs := by
  induction rs generalizing w with
  | nil => simp [releaseAll]
  | cons r rs ih =>
    obtain ⟨h1, h2, h3, h4, h5, h6, h7⟩ := ih (w.Release r)
    simp only [releaseAll]
    refine ⟨?_, h2, h3, h4, h5, h6, h7⟩
    rw [h1]; simp [World.Release]

theorem dropAll_fields (w : World) (rs : List ResId) :
    (dropAll w rs).released = w.released ∧
    (dropAll w rs).resourcesMaps = w.resourcesMaps ∧
    (dropAll w rs).resourcesMapRefs = w.resourcesMapRefs ∧
    (dropAll w rs).delayMaps = w.delayMaps ∧
    (dropAll w rs).queues = w.queues ∧
    (dropAll w rs).queueRefs = w.queueRefs := by
  induction rs generalizing w with
  | nil => exact ⟨rfl, rfl, rfl, rfl, rfl, rfl⟩
  | cons r rs ih =>
    obtain ⟨h1, h2, h3, h4, h5, h6⟩ := ih (w.dropHandle r)
    exact ⟨h1, h2, h3, h4, h5, h6⟩

theorem nullifyResourcesMap_released (w : World) (a : Addr) :
    (nullifyResourcesMap w a).released = w.released ∧
    (nullifyResourcesMap w a).queues = w.queues ∧
    (nullifyResourcesMap w a).delayMaps = w.delayMaps := by
  unfold nullifyResourcesMap
  simp only []
  split
  · obtain ⟨h1, -, -, h4, h5, -⟩ := dropAll_fields
      { w with resourcesMapRefs :=
          Function.update w.resourcesMapRefs a (w.resourcesMapRefs a - 1) }
      (List.map Prod.snd (w.resourcesMaps a))
    exact ⟨h1, h5, h4⟩
  · exact ⟨rfl, rfl, rfl⟩

theorem nullifyQueue_released (w : World) (a : Addr) :
    (nullifyQueue w a).released = w.released ∧
    (nullifyQueue w a).resourcesMaps = w.resourcesMaps ∧
    (nullifyQueue w a).resourcesMapRefs = w.resourcesMapRefs ∧
    (nullifyQueue w a).delayMaps = w.delayMaps := by
  unfold nullifyQueue
  simp only []
  split
  · obtain ⟨h1, h2, h3, h4, -, -⟩ := dropAll_fields
      { w with queueRefs := Function.update w.queueRefs a (w.queueRefs a - 1) } (w.queues a)
    exact ⟨h1, h2, h3, h4⟩
  · exact ⟨rfl, rfl, rfl, rfl⟩

theorem nullifyQueue_empty (w : World) (a : Addr) (h : w.queues a = []) :
    (nullifyQueue w a).refCount = w.refCount := by
  unfold nullifyQueue
  simp only [h]
  split <;> rfl

theorem ReleaseDelayed_refs (this : Context) (w : World) :
    (this.ReleaseDelayed w).resourcesMapRefs = w.resourcesMapRefs ∧
    (this.ReleaseDelayed w).queues this.myReleaseQueue = [] := by
  rw [ReleaseDelayed_eq]
  exact ⟨(swept_fields this w).2.1, (swept_fields this w).1⟩

theorem destroy_last (this : Context) (w : World)
    (hlast : w.resourcesMapRefs this.mySharedResources ≤ 1) :
    (this.destroy w).released = (this.ReleaseDelayed w).released ++
      ((this.ReleaseDelayed w).resourcesMaps this.mySharedResources).map Prod.snd := by
  obtain ⟨r1, -⟩ := ReleaseDelayed_refs this w
  unfold destroy
  simp only [r1, hlast, if_true]
  rw [(nullifyQueue_released _ _).1, (nullifyResourcesMap_released _ _).1,
    (releaseAll_fields _ _).1]

theorem call_refs (this : Context) (s : World × List ResId) (c : Call) :
    (call this s c).1.resourcesMapRefs = s.1.resourcesMapRefs := by
  cases c with
  | ShareResource k r =>
    cases r with
    | none => rfl
    | some r =>
      simp only [call, ShareResource]
      split
      · rfl
      · split <;> rfl
  | ReleaseResource k d =>
    simp only [call, ReleaseResource]
    split
    · rfl
    · split
      · rfl
      · split
        · rfl
        · split <;> rfl
  | DelayedRelease r => rfl
  | ReleaseDelayed => exact (ReleaseDelayed_refs this s.1).1
  | copyHandle r => rfl
  | dropHandle r => rfl

theorem calls_refs (this : Context) (cs : List Call) (s : World × List ResId) :
    (cs.foldl (call this) s).1.resourcesMapRefs = s.1.resourcesMapRefs := by
  induction cs generalizing s with
  | nil => rfl
  | cons c cs ih =>
    simp only [List.foldl_cons]
    rw [ih, call_refs]

/-- C17, amended: for every sequence of ShareResource, ReleaseResource,
DelayedRelease and ReleaseDelayed calls (and handles copied or destroyed by
callers) on a registry and a queue that start empty, once the last context
holding the registry is destroyed the release routine of every resource has
been invoked as many times as the resource was placed, in the registry by a
successful ShareResource or in the immediate-release queue by DelayedRelease:
exactly once for a resource placed once. -/
theorem releases_match_placements (this : Context) (w : World) (cs : List Call) (r : ResId)
    (hreg : w.resourcesMaps this.mySharedResources = [])
    (hq : w.queues this.myReleaseQueue = [])
    (hlast : w.resourcesMapRefs this.mySharedResources ≤ 1) :
    (this.destroy (calls this w cs).1).releaseCount r
      = w.releaseCount r + (calls this w cs).2.count r := by
  have h0 : Balanced this (fun x => w.releaseCount x + ([] : List ResId).count x) w := by
    refine ⟨by rw [hreg]; exact List.nodup_nil, fun x => ?_⟩
    rw [hreg, hq]; simp
  have h1 := foldl_call_Balanced this (fun x => w.releaseCount x) cs (w, []) h0
  have h2 := ReleaseDelayed_Balanced this _ _ h1
  have hl : (calls this w cs).1.resourcesMapRefs this.mySharedResources ≤ 1 := by
    unfold calls
    rw [calls_refs]; exact hlast
  have h3 := h2.2 r
  rw [(ReleaseDelayed_refs this _).2] at h3
  unfold World.releaseCount at h3 ⊢
  rw [destroy_last this _ hl, List.count_append]
  simp only [List.count_nil, Nat.add_zero] at h3
  exact h3

theorem releases_match_placements_witness :
    ((constructed 0 0 0).destroy (calls (constructed 0 0 0) emptyWorld
      [Call.ShareResource "a" (some 5), Call.ReleaseResource "a" true,
        Call.DelayedRelease 6, Call.ReleaseDelayed]).1).releaseCount 5
      = emptyWorld.releaseCount 5 + (calls (constructed 0 0 0) emptyWorld
      [Call.ShareResource "a" (some 5), Call.ReleaseResource "a" true,
        Call.DelayedRelease 6, Call.ReleaseDelayed]).2.count 5 :=
  releases_match_placements (constructed 0 0 0) emptyWorld _ 5 rfl rfl (by decide)

/-- C17, counterexample: resource 5 is registered under the keys "a" and "b";
when the last context holding the registry is destroyed its release routine
has been invoked twice, not once. -/
theorem resource_under_two_keys_released_twice :
    (calls (constructed 0 0 0) emptyWorld
      [Call.ShareResource "a" (some 5), Call.ShareResource "b" (some 5)]).2 = [5, 5] ∧
    emptyWorld.resourcesMapRefs (constructed 0 0 0).mySharedResources ≤ 1 ∧
    ((constructed 0 0 0).destroy (calls (constructed 0 0 0) emptyWorld
      [Call.ShareResource "a" (some 5), Call.ShareResource "b" (some 5)]).1).releaseCount 5
      = 2 := by
  decide

theorem nullifyResourcesMap_shared (w : World) (a : Addr)
    (h : w.resourcesMapRefs a - 1 ≠ 0) :
    (nullifyResourcesMap w a).released = w.released ∧
    (nullifyResourcesMap w a).refCount = w.refCount ∧
    (nullifyResourcesMap w a).resourcesMaps = w.resourcesMaps ∧
    (nullifyResourcesMap w a).delayMaps = w.delayMaps ∧
    (nullifyResourcesMap w a).queues = w.queues ∧
    (nullifyResourcesMap w a).resourcesMapRefs a = w.resourcesMapRefs a - 1 := by
  unfold nullifyResourcesMap
  simp [h]

/-- C18, amended: destroying a context that is not the last holder of the
registry runs ReleaseDelayed once and beyond that only detaches: the release
trace, the reference counts of the resources, the bindings of the registry and
the entries and counters of the deferred queue are those ReleaseDelayed leaves
(the teardown loop over the registry does not run), and the registry has one
holder less. -/
theorem destroy_not_last_holder (this : Context) (w : World)
    (h : 1 < w.resourcesMapRefs this.mySharedResources) :
    (this.destroy w).released = (this.ReleaseDelayed w).released ∧
    (this.destroy w).refCount = (this.ReleaseDelayed w).refCount ∧
    (this.destroy w).resourcesMaps = (this.ReleaseDelayed w).resourcesMaps ∧
    (this.destroy w).delayMaps = (this.ReleaseDelayed w).delayMaps ∧
    (this.destroy w).resourcesMapRefs this.mySharedResources
      = w.resourcesMapRefs this.mySharedResources - 1 := by
  obtain ⟨r1, r2⟩ := ReleaseDelayed_refs this w
  have hn : ¬ (w.resourcesMapRefs this.mySharedResources ≤ 1) := by omega
  have hn0 : (this.ReleaseDelayed w).resourcesMapRefs this.mySharedResources - 1 ≠ 0 := by
    rw [r1]; omega
  obtain ⟨n1, n2, n3, n4, n5, n6⟩ :=
    nullifyResourcesMap_shared (this.ReleaseDelayed w) this.mySharedResources hn0
  have hd : this.destroy w =
      nullifyQueue (nullifyResourcesMap (this.ReleaseDelayed w) this.mySharedResources)
        this.myReleaseQueue := by
    unfold destroy
    simp [r1, hn]
  rw [hd]
  obtain ⟨q1, q2, q3, q4⟩ := nullifyQueue_released
    (nullifyResourcesMap (this.ReleaseDelayed w) this.mySharedResources) this.myReleaseQueue
  have q5 := nullifyQueue_empty
    (nullifyResourcesMap (this.ReleaseDelayed w) this.mySharedResources) this.myReleaseQueue
    (by rw [n5]; exact r2)
  rw [q1, q5, q2, q4, q3, n1, n2, n3, n4, n6, r1]
  exact ⟨rfl, rfl, rfl, rfl, rfl⟩

theorem destroy_not_last_holder_witness :
    ((constructed 0 0 0).destroy (sharedWorld 2 1)).released
      = ((constructed 0 0 0).ReleaseDelayed (sharedWorld 2 1)).released ∧
    ((constructed 0 0 0).destroy (sharedWorld 2 1)).resourcesMaps
      = ((constructed 0 0 0).ReleaseDelayed (sharedWorld 2 1)).resourcesMaps :=
  have h := destroy_not_last_holder (constructed 0 0 0) (sharedWorld 2 1) (by decide)
  ⟨h.1, h.2.2.1⟩

/-- C18, counterexample: two contexts hold the registry, "tex" is bound to
resource 7 of reference count 1 and deferred with the value 2; destroying one
of the two contexts releases resource 7, unbinds "tex" and empties the deferred
queue. -/
theorem destroy_not_last_holder_releases :
    1 < (sharedWorld 1 2).resourcesMapRefs (constructed 0 0 0).mySharedResources ∧
    (constructed 0 0 0).GetResource (sharedWorld 1 2) "tex" = some 7 ∧
    (sharedWorld 1 2).delayMaps 0 = [("tex", 2)] ∧
    ((constructed 0 0 0).destroy (sharedWorld 1 2)).released = [7] ∧
    (constructed 0 0 0).GetResource ((constructed 0 0 0).destroy (sharedWorld 1 2)) "tex" = none ∧
    ((constructed 0 0 0).destroy (sharedWorld 1 2)).delayMaps 0 = [] := by
  decide

end Context

/-! ## Version negotiation -/

theorem IsGlGreaterEqual_iff (v : Int × Int) (a b : Int) :
    IsGlGreaterEqual v a b = true ↔ versionLe (a, b) v := by
  unfold IsGlGreaterEqual versionLe
  simp only [Bool.or_eq_true, Bool.and_eq_true, decide_eq_true_eq, gt_iff_lt, ge_iff_le]
  constructor
  · rintro (h | ⟨h1, h2⟩)
    · exact Or.inl h
    · exact Or.inr ⟨h1.symm, h2⟩
  · rintro (h | ⟨h1, h2⟩)
    · exact Or.inl h
    · exact Or.inr ⟨h1.symm, h2⟩

theorem versionLe_of_tier (gl : GlDriver) (v : Int × Int) (a b : Int) (fs : List String)
    (h : tierSatisfied gl v a b fs = true) : versionLe (a, b) v := by
  unfold tierSatisfied at h
  rw [Bool.and_eq_true] at h
  exact (IsGlGreaterEqual_iff v a b).1 h.1

theorem versionLe_trans (a b c : Int × Int) (h1 : versionLe a b) (h2 : versionLe b c) :
    versionLe a c := by
  unfold versionLe at *
  omega

theorem versionLe_refl (a : Int × Int) : versionLe a a := Or.inr ⟨rfl, Int.le_refl _⟩

namespace Context

theorem init_version (this : Context) (gl : GlDriver) :
    (this.init gl).version =
      if tierSatisfied gl (readGlVersion gl) 1 2 core12Procs = false then (1, 1)
      else if tierSatisfied gl (readGlVersion gl) 1 3 core13Procs = false then (1, 2)
      else if tierSatisfied gl (readGlVersion gl) 1 4 core14Procs = false then (1, 3)
      else if tierSatisfied gl (readGlVersion gl) 1 5 core15Procs = false then (1, 4)
      else if tierSatisfied gl (readGlVersion gl) 2 0 core20Procs = false then (1, 5)
      else readGlVersion gl := by
  unfold init
  simp only []
  rw [ladder_version]
  simp only [hasGlCore_ok, version_init]
  rfl

/-- C19, amended: when the version readGlVersion resolved is at least (1,1),
the version advertised after init is lexicographically at most the resolved
one; a resolved version below (1,1), the unknown (0,0) among them, is
advertised as (1,1). -/
theorem init_clamps_down_from_1_1 (this : Context) (gl : GlDriver) :
    (versionLe (1, 1) (readGlVersion gl) →
      versionLe (this.init gl).version (readGlVersion gl)) ∧
    (¬ versionLe (1, 1) (readGlVersion gl) → (this.init gl).version = (1, 1)) := by
  rw [init_version]
  constructor
  · intro h11
    by_cases h12 : tierSatisfied gl (readGlVersion gl) 1 2 core12Procs = false
    · rw [if_pos h12]; exact h11
    rw [if_neg h12]
    have s12 : versionLe (1, 2) (readGlVersion gl) :=
      versionLe_of_tier gl _ 1 2 _ (by simpa using h12)
    by_cases h13 : tierSatisfied gl (readGlVersion gl) 1 3 core13Procs = false
    · rw [if_pos h13]; exact s12
    rw [if_neg h13]
    have s13 : versionLe (1, 3) (readGlVersion gl) :=
      versionLe_of_tier gl _ 1 3 _ (by simpa using h13)
    by_cases h14 : tierSatisfied gl (readGlVersion gl) 1 4 core14Procs = false
    · rw [if_pos h14]; exact s13
    rw [if_neg h14]
    have s14 : versionLe (1, 4) (readGlVersion gl) :=
      versionLe_of_tier gl _ 1 4 _ (by simpa using h14)
    by_cases h15 : tierSatisfied gl (readGlVersion gl) 1 5 core15Procs = false
    · rw [if_pos h15]; exact s14
    rw [if_neg h15]
    have s15 : versionLe (1, 5) (readGlVersion gl) :=
      versionLe_of_tier gl _ 1 5 _ (by simpa using h15)
    by_cases h20 : tierSatisfied gl (readGlVersion gl) 2 0 core20Procs = false
    · rw [if_pos h20]; exact s15
    rw [if_neg h20]
    exact versionLe_refl _
  · intro h11
    have h12 : tierSatisfied gl (readGlVersion gl) 1 2 core12Procs = false := by
      cases h : tierSatisfied gl (readGlVersion gl) 1 2 core12Procs with
      | false => rfl
      | true =>
        exact absurd
          (versionLe_trans (1, 1) (1, 2) _ (by decide) (versionLe_of_tier gl _ 1 2 _ h)) h11
    simp [h12]

/-- C19, counterexample: readGlVersion resolves the empty version string to the
unknown version (0,0) and init advertises (1,1), which is not lexicographically
less than or equal to (0,0). -/
theorem init_raises_unknown_version :
    readGlVersion (legacyDriver []) = (0, 0) ∧
    ((constructed 0 0 0).init (legacyDriver [])).version = (1, 1) ∧
    ¬ versionLe ((constructed 0 0 0).init (legacyDriver [])).version
        (readGlVersion (legacyDriver [])) := by
  decide

end Context

/-- C20, amended: when the integer query raises no error and reports (M, m) with
M and m both different from 0, readGlVersion resolves the version to (M, m),
whatever the version string is. -/
theorem readGlVersion_integer_query (gl : GlDriver) (theVersion : Option (List Char))
    (he : gl.versionError = 0) (hM : gl.majorVersion ≠ 0) (hm : gl.minorVersion ≠ 0) :
    readGlVersion gl = (gl.majorVersion, gl.minorVersion) ∧
    readGlVersion { gl with versionString := theVersion }
      = (gl.majorVersion, gl.minorVersion) := by
  constructor <;> simp [readGlVersion, intQueryUsable, he, hM, hm]

theorem readGlVersion_integer_query_witness :
    readGlVersion (modernDriver 3 3 "2.1".toList) = (3, 3) ∧
    readGlVersion { modernDriver 3 3 "2.1".toList with versionString := none } = (3, 3) :=
  readGlVersion_integer_query (modernDriver 3 3 "2.1".toList) none
    (by decide) (by decide) (by decide)

/-- C20, counterexample: the integer query raises no error and reports (3, 0),
so M >= 1 and m >= 0, and readGlVersion resolves the version from the string:
(2,1) for "2.1 Mesa", (3,0) for "3.0"; the result depends on the string. -/
theorem readGlVersion_minor_zero_falls_back :
    (modernDriver 3 0 "2.1 Mesa".toList).versionError = 0 ∧
    (modernDriver 3 0 "2.1 Mesa".toList).majorVersion ≥ 1 ∧
    (modernDriver 3 0 "2.1 Mesa".toList).minorVersion ≥ 0 ∧
    readGlVersion (modernDriver 3 0 "2.1 Mesa".toList) = (2, 1) ∧
    readGlVersion (modernDriver 3 0 "2.1 Mesa".toList) ≠ (3, 0) ∧
    readGlVersion (modernDriver 3 0 "3.0".toList)
      ≠ readGlVersion (modernDriver 3 0 "2.1 Mesa".toList) := by
  decide

namespace Context

/-! ## Re-deferring -/

/-- C21: for a key K that already has an entry in the deferred-release queue, a
further ReleaseResource (K, true) leaves the world, hence the deferred queue and
the value stored for K, unchanged; any number of ReleaseDelayed calls then gives
the same world as without the second request. -/
theorem ReleaseResource_deferred_again (this : Context) (w : World) (K : Key)
    (hK : (w.delayMaps this.myDelayed).IsBound K = true) :
    this.ReleaseResource w K true = w ∧
    (this.ReleaseResource w K true).delayMaps this.myDelayed = w.delayMaps this.myDelayed ∧
    ((this.ReleaseResource w K true).delayMaps this.myDelayed).Find K
      = (w.delayMaps this.myDelayed).Find K ∧
    ∀ n : Nat, Nat.iterate this.ReleaseDelayed n (this.ReleaseResource w K true)
      = Nat.iterate this.ReleaseDelayed n w := by
  have h : this.ReleaseResource w K true = w := by
    unfold ReleaseResource
    split
    · rfl
    · split
      · rfl
      · split
        · rfl
        · simp [DataMap.Bind, hK]
  rw [h]
  exact ⟨rfl, rfl, rfl, fun _ => rfl⟩

theorem ReleaseResource_deferred_again_witness :
    (constructed 0 0 0).ReleaseResource
        ((constructed 0 0 0).ReleaseDelayed
          ((constructed 0 0 0).ReleaseResource (textureWorld 1) "tex" true)) "tex" true
      = (constructed 0 0 0).ReleaseDelayed
          ((constructed 0 0 0).ReleaseResource (textureWorld 1) "tex" true) ∧
    (((constructed 0 0 0).ReleaseDelayed
          ((constructed 0 0 0).ReleaseResource (textureWorld 1) "tex" true)).delayMaps 0).Find "tex"
      = some 2 :=
  have h := ReleaseResource_deferred_again (constructed 0 0 0)
    ((constructed 0 0 0).ReleaseDelayed
      ((constructed 0 0 0).ReleaseResource (textureWorld 1) "tex" true)) "tex" (by decide)
  ⟨h.1, by decide⟩

/-! ## Values stored in the deferred queue -/

theorem ReleaseResource_delayMaps (this : Context) (w : World) (K : Key) (d : Bool) :
    (this.ReleaseResource w K d).delayMaps this.myDelayed = w.delayMaps this.myDelayed ∨
    (this.ReleaseResource w K d).delayMaps this.myDelayed
      = w.delayMaps this.myDelayed ++ [(K, 1)] := by
  unfold ReleaseResource
  split
  · exact Or.inl rfl
  · split
    · exact Or.inl rfl
    · split
      · exact Or.inl rfl
      · cases d with
        | false => exact Or.inl rfl
        | true =>
          simp only [if_true, Function.update_same, DataMap.Bind]
          split
          · exact Or.inl rfl
          · exact Or.inr rfl

theorem ShareResource_delayMaps (this : Context) (w : World) (K : Key) (R : Option ResId) :
    (this.ShareResource w K R).2.delayMaps = w.delayMaps := by
  unfold ShareResource
  cases R with
  | none => rfl
  | some r =>
    simp only []
    split
    · rfl
    · split <;> rfl

theorem afterSweep_values (d : DataMap Key Int) (h : ∀ e ∈ d, e.2 = 1 ∨ e.2 = 2) :
    ∀ e ∈ afterSweep d, e.2 = 2 := by
  intro e he
  simp only [afterSweep, List.mem_filter, List.mem_map] at he
  obtain ⟨⟨e0, he0, rfl⟩, hdead⟩ := he
  rcases h e0 he0 with h1 | h2
  · show e0.2 + 1 = 2
    rw [h1]; rfl
  · exfalso
    have hin : e0.1 ∈ (d.filter (fun e => !decide (e.2 + 1 ≤ 2))).map Prod.fst := by
      refine List.mem_map.2 ⟨e0, List.mem_filter.2 ⟨he0, ?_⟩, rfl⟩
      rw [h2]; decide
    simp [hin] at hdead

theorem ReleaseDelayed_values (this : Context) (w : World)
    (h : ∀ e ∈ w.delayMaps this.myDelayed, e.2 = 1 ∨ e.2 = 2) :
    ∀ e ∈ (this.ReleaseDelayed w).delayMaps this.myDelayed, e.2 = 2 := by
  rw [ReleaseDelayed_eq]
  simp only [Function.update_same]
  exact afterSweep_values _ h

theorem call_values (this : Context) (s : World × List ResId) (c : Call)
    (h : ∀ e ∈ s.1.delayMaps this.myDelayed, e.2 = 1 ∨ e.2 = 2) :
    ∀ e ∈ (call this s c).1.delayMaps this.myDelayed, e.2 = 1 ∨ e.2 = 2 := by
  cases c with
  | ShareResource k r =>
    cases r with
    | none => exact h
    | some r =>
      simp only [call]
      rw [ShareResource_delayMaps]
      exact h
  | ReleaseResource k d =>
    simp only [call]
    rcases ReleaseResource_delayMaps this s.1 k d with e1 | e1
    · rw [e1]; exact h
    · rw [e1]
      intro e he
      rcases List.mem_append.1 he with h1 | h1
      · exact h e h1
      · simp only [List.mem_singleton] at h1
        rw [h1]; exact Or.inl rfl
  | DelayedRelease r => exact h
  | ReleaseDelayed =>
    intro e he
    exact Or.inr (ReleaseDelayed_values this s.1 h e he)
  | copyHandle r => exact h
  | dropHandle r => exact h

theorem calls_values (this : Context) (cs : List Call) (s : World × List ResId)
    (h : ∀ e ∈ s.1.delayMaps this.myDelayed, e.2 = 1 ∨ e.2 = 2) :
    ∀ e ∈ (cs.foldl (call this) s).1.delayMaps this.myDelayed, e.2 = 1 ∨ e.2 = 2 := by
  induction cs generalizing s with
  | nil => exact h
  | cons c cs ih =>
    simp only [List.foldl_cons]
    exact ih _ (call_values this s c h)

/-- C24: starting from an empty deferred-release queue, after every sequence of
ShareResource, ReleaseResource and ReleaseDelayed calls (DelayedRelease and the
handles of callers included) every value stored in the deferred queue is 1 or
2, and right after a further ReleaseDelayed every remaining value is 2. -/
theorem deferred_values_one_or_two (this : Context) (w : World) (cs : List Call)
    (h : w.delayMaps this.myDelayed = []) :
    (∀ e ∈ (calls this w cs).1.delayMaps this.myDelayed, e.2 = 1 ∨ e.2 = 2) ∧
    (∀ e ∈ (this.ReleaseDelayed (calls this w cs).1).delayMaps this.myDelayed, e.2 = 2) := by
  have h0 : ∀ e ∈ (calls this w cs).1.delayMaps this.myDelayed, e.2 = 1 ∨ e.2 = 2 := by
    unfold calls
    apply calls_values
    intro e he
    rw [h] at he
    cases he
  exact ⟨h0, ReleaseDelayed_values this _ h0⟩

theorem deferred_values_one_or_two_witness :
    (∀ e ∈ (calls (constructed 0 0 0) (textureWorld 1)
        [Call.ReleaseResource "tex" true, Call.ReleaseDelayed]).1.delayMaps
          (constructed 0 0 0).myDelayed, e.2 = 1 ∨ e.2 = 2) ∧
    (∀ e ∈ ((constructed 0 0 0).ReleaseDelayed (calls (constructed 0 0 0) (textureWorld 1)
        [Call.ReleaseResource "tex" true, Call.ReleaseDelayed]).1).delayMaps
          (constructed 0 0 0).myDelayed, e.2 = 2) :=
  deferred_values_one_or_two (constructed 0 0 0) (textureWorld 1) _ rfl

end Context

namespace Context

/-! ## Core tiers and the advertised version -/

end Context

namespace Context

/-! ## A stale deferred entry -/

theorem two_sweeps (this : Context) (K : Key) (r : ResId) (n : Nat) (wA : World)
    (D : DataMap Key Int)
    (hsA : OnlyHandle this K r n wA) (hqA : r ∉ wA.queues this.myReleaseQueue)
    (hdA : wA.delayMaps this.myDelayed = D ++ [(K, 1)]) (hD : D.IsBound K = false) :
    this.GetResource (this.ReleaseDelayed wA) K = some r ∧
    (this.ReleaseDelayed wA).releaseCount r = n ∧
    this.GetResource (this.ReleaseDelayed (this.ReleaseDelayed wA)) K = none ∧
    (this.ReleaseDelayed (this.ReleaseDelayed wA)).releaseCount r = n + 1 := by
  obtain ⟨e1, e2⟩ := afterSweep_fresh D K hD
  have hk : ∀ e ∈ D, e.1 ≠ K := by
    intro e he h
    have hb : D.IsBound K = true := by
      simp only [DataMap.IsBound, List.any_eq_true, decide_eq_true_eq]
      exact ⟨e, he, h⟩
    rw [hD] at hb; cases hb
  have hlA : ∀ e ∈ wA.delayMaps this.myDelayed, e.1 ≠ K ∨ e.2 + 1 ≤ 2 := by
    rw [hdA]
    intro e he
    rcases List.mem_append.1 he with h | h
    · exact Or.inl (hk e h)
    · simp only [List.mem_singleton] at h
      rw [h]; exact Or.inr (show ((1 : Int) + 1 ≤ 2) by decide)
  obtain ⟨b1, b2, b3⟩ := ReleaseDelayed_keeps this K r _ wA hsA hqA hlA
  rw [hdA, e1] at b3
  have hqB : r ∉ (this.ReleaseDelayed wA).queues this.myReleaseQueue := by rw [b2]; simp
  have hG := ReleaseDelayed_releases this K r _ (this.ReleaseDelayed wA) _ 2 b1 hqB b3
    (fun e he => Or.inl (e2 e he)) (by decide)
  refine ⟨?_, b1.2.2.2, ?_, hG.2.2⟩
  · rw [GetResource_eq_Find]; exact b1.1
  · rw [GetResource_eq_Find]; exact hG.1

theorem ReleaseResource_at_once (this : Context) (w : World) (K : Key) (r : ResId)
    (hF : (w.resourcesMaps this.mySharedResources).Find K = some r)
    (hc : ¬ (1 < w.refCount r)) :
    (this.ReleaseResource w K false).resourcesMaps this.mySharedResources
      = (w.resourcesMaps this.mySharedResources).UnBind K ∧
    (this.ReleaseResource w K false).released = w.released ++ [r] ∧
    (this.ReleaseResource w K false).delayMaps = w.delayMaps ∧
    (this.ReleaseResource w K false).queues = w.queues := by
  have hB := DataMap.IsBound_of_Find _ _ _ hF
  unfold ReleaseResource
  simp [hB, hF, hc, World.Release, World.dropHandle]

/-- C23: let K be bound to R1, of reference count at most 1, with no deferred
entry yet, and let R2 be a resource that is neither in the registry nor in the
immediate-release queue.  After ReleaseResource (K, true), ReleaseResource
(K, false) has released R1 and unbound K while the deferred entry for K remains;
ShareResource (K, R2) then succeeds, R2 being held only by the registry; one
ReleaseDelayed leaves K bound to R2, and the second releases R2 and unbinds K,
although no release of K was requested after R2 was registered. -/
theorem stale_entry_releases_new_resource (this : Context) (w : World) (K : Key)
    (R1 R2 : ResId) (hne : K ≠ "")
    (hK : this.GetResource w K = some R1) (hc1 : w.refCount R1 ≤ 1)
    (hD : (w.delayMaps this.myDelayed).IsBound K = false)
    (hnew : ∀ e ∈ w.resourcesMaps this.mySharedResources, e.2 ≠ R2)
    (hq : R2 ∉ w.queues this.myReleaseQueue) :
    this.GetResource (this.ReleaseResource (this.ReleaseResource w K true) K false) K = none ∧
    (this.ReleaseResource (this.ReleaseResource w K true) K false).releaseCount R1
      = w.releaseCount R1 + 1 ∧
    ((this.ReleaseResource (this.ReleaseResource w K true) K false).delayMaps
      this.myDelayed).Find K = some 1 ∧
    (this.ShareResource (this.ReleaseResource (this.ReleaseResource w K true) K false)
      K (some R2)).1 = true ∧
    this.GetResource (reRegistered this w K R2) K = some R2 ∧
    (reRegistered this w K R2).refCount R2 = 1 ∧
    (reRegistered this w K R2).releaseCount R2 = w.releaseCount R2 ∧
    this.GetResource (this.ReleaseDelayed (reRegistered this w K R2)) K = some R2 ∧
    (this.ReleaseDelayed (reRegistered this w K R2)).releaseCount R2 = w.releaseCount R2 ∧
    this.GetResource (this.ReleaseDelayed (this.ReleaseDelayed (reRegistered this w K R2))) K
      = none ∧
    (this.ReleaseDelayed (this.ReleaseDelayed (reRegistered this w K R2))).releaseCount R2
      = w.releaseCount R2 + 1 := by
  have hF := hK
  rw [GetResource_eq_Find] at hF
  have hB := DataMap.IsBound_of_Find _ _ _ hF
  have hc1' : ¬ (1 < w.refCount R1) := by omega
  have h12 : R1 ≠ R2 := hnew (K, R1) (DataMap.mem_of_Find _ _ _ hF)
  -- the first request puts K in the deferred queue
  have hA : this.ReleaseResource w K true =
      { w with delayMaps := Function.update w.delayMaps this.myDelayed
                  (w.delayMaps this.myDelayed ++ [(K, 1)]) } := by
    unfold ReleaseResource
    simp [hB, hF, hc1', DataMap.Bind, hD]
  generalize hwA : this.ReleaseResource w K true = wA at hA
  have a1 : wA.resourcesMaps = w.resourcesMaps := by rw [hA]
  have a2 : wA.refCount = w.refCount := by rw [hA]
  have a3 : wA.released = w.released := by rw [hA]
  have a4 : wA.queues = w.queues := by rw [hA]
  have a5 : wA.delayMaps this.myDelayed = w.delayMaps this.myDelayed ++ [(K, 1)] := by
    rw [hA]; simp
  -- the second request releases R1 at once
  have hFA : (wA.resourcesMaps this.mySharedResources).Find K = some R1 := by rw [a1]; exact hF
  have hBA := DataMap.IsBound_of_Find _ _ _ hFA
  have hcA : ¬ (1 < wA.refCount R1) := by rw [a2]; exact hc1'
  obtain ⟨b1, b2, b3, b4⟩ := ReleaseResource_at_once this wA K R1 hFA hcA
  rw [a1] at b1
  rw [a3] at b2
  rw [a4] at b4
  generalize hwB : this.ReleaseResource wA K false = wB at b1 b2 b3 b4
  have hUB : (wB.resourcesMaps this.mySharedResources).IsBound K = false := by
    rw [b1]; exact DataMap.IsBound_UnBind_self _ _
  -- the key is registered again, for R2
  have hS := ShareResource_fresh this wB K R2 hne hUB
  have hwC : reRegistered this w K R2 =
      ((this.ShareResource wB K (some R2)).2).dropHandles R2 (wB.refCount R2) := by
    rw [← hwB, ← hwA]; rfl
  rw [hwC, hS]
  obtain ⟨f1, f2, f3, f4⟩ := dropHandles_fields
    ({ wB.copyHandle R2 with
        resourcesMaps := Function.update wB.resourcesMaps this.mySharedResources
          (wB.resourcesMaps this.mySharedResources ++ [(K, R2)]) } : World) R2 (wB.refCount R2)
  have f5 := dropHandles_refCount
    ({ wB.copyHandle R2 with
        resourcesMaps := Function.update wB.resourcesMaps this.mySharedResources
          (wB.resourcesMaps this.mySharedResources ++ [(K, R2)]) } : World) R2 (wB.refCount R2)
  generalize ({ wB.copyHandle R2 with
        resourcesMaps := Function.update wB.resourcesMaps this.mySharedResources
          (wB.resourcesMaps this.mySharedResources ++ [(K, R2)]) } : World).dropHandles R2
      (wB.refCount R2) = wC at f1 f2 f3 f4 f5
  have c1 : wC.resourcesMaps this.mySharedResources
      = (w.resourcesMaps this.mySharedResources).UnBind K ++ [(K, R2)] := by
    rw [f2]; simp [b1]
  have c2 : wC.released = w.released ++ [R1] := by rw [f1]; exact b2
  have c3 : wC.delayMaps this.myDelayed = w.delayMaps this.myDelayed ++ [(K, 1)] := by
    rw [f3]
    show wB.delayMaps this.myDelayed = _
    rw [b3, a5]
  have c4 : wC.queues = w.queues := by rw [f4]; exact b4
  have c5 : wC.refCount R2 = 1 := by
    rw [f5]
    simp [World.copyHandle]
  have hUw : ((w.resourcesMaps this.mySharedResources).UnBind K).IsBound K = false :=
    DataMap.IsBound_UnBind_self _ _
  have c6 : (wC.resourcesMaps this.mySharedResources).Find K = some R2 := by
    rw [c1, DataMap.Find_append_of_not_bound _ _ _ hUw]; simp [DataMap.Find]
  have c7 : wC.releaseCount R2 = w.releaseCount R2 := by
    have hz : List.count R2 [R1] = 0 := by simp [List.count_cons, h12]
    simp [World.releaseCount, c2, List.count_append, hz]
  have hO : OnlyHandle this K R2 (w.releaseCount R2) wC := by
    refine ⟨c6, c5, ?_, c7⟩
    intro e he her
    rw [c1] at he
    rcases List.mem_append.1 he with h | h
    · exact absurd her (hnew e (DataMap.mem_UnBind _ _ _ h).1)
    · simp only [List.mem_singleton] at h
      rw [h]
  have hqC : R2 ∉ wC.queues this.myReleaseQueue := by rw [c4]; exact hq
  obtain ⟨t1, t2, t3, t4⟩ := two_sweeps this K R2 _ wC _ hO hqC c3 hD
  refine ⟨?_, ?_, ?_, rfl, ?_, c5, c7, t1, t2, t3, t4⟩
  · rw [GetResource_eq_Find]
    exact DataMap.Find_eq_none_of_not_bound _ _ hUB
  · simp [World.releaseCount, b2, List.count_append]
  · rw [b3, a5, DataMap.Find_append_of_not_bound _ _ _ hD]; simp [DataMap.Find]
  · rw [GetResource_eq_Find]; exact c6

theorem stale_entry_releases_new_resource_witness :
    (constructed 0 0 0).GetResource
      ((constructed 0 0 0).ReleaseDelayed
        ((constructed 0 0 0).ReleaseDelayed
          (reRegistered (constructed 0 0 0) (textureWorld 1) "tex" 8))) "tex" = none ∧
    ((constructed 0 0 0).ReleaseDelayed
        ((constructed 0 0 0).ReleaseDelayed
          (reRegistered (constructed 0 0 0) (textureWorld 1) "tex" 8))).releaseCount 8
      = (textureWorld 1).releaseCount 8 + 1 :=
  have h := stale_entry_releases_new_resource (constructed 0 0 0) (textureWorld 1) "tex" 7 8
    (by decide) (by decide) (by decide) (by decide) (by decide) (by decide)
  ⟨h.2.2.2.2.2.2.2.2.2.1, h.2.2.2.2.2.2.2.2.2.2⟩

end Context

end OpenGl
